import Mathlib

/-!
Verification development for the COFF linker symbol-resolution engine
(`lld/COFF/SymbolTable.cpp`).  The definitions below are a shallow embedding
of the symbol table's data model and resolution operations; theorems about
the claimed properties of the engine follow after the definitions.

Modelling conventions:
* `Symbol *` pointers become indices into a growing arena (`SymTab.arena`),
  matching the source's arena allocation (`make<SymbolUnion>`) and in-place
  `replaceSymbol` with stable addresses.
* The tagged class hierarchy rooted at `Symbol` becomes the sum type
  `SymbolKind`; shared flags that live outside the variant (their
  preservation across `replaceSymbol` is specified in `Symbols.h`, which is
  outside the extracted sources, and by the spec's "replaceKind ... preserving
  the shared flags" contract) live in the `Symbol` structure.
* Diagnostics (`Err`/`Warn`/`Fatal`) become values accumulated in
  `SymTab.diags`, or an `Except` result for `Fatal`, which aborts the link.
* ARM64EC-only branches (`isEC()`) are elided: the model fixes a non-EC
  target machine, on which those branches are dead code.
-/

namespace LldCOFF

/-- An input file as seen by the symbol table: an id and whether it is a
bitcode (LTO) module; `lazyFlag` mirrors `InputFile::lazy` for lazy object
files (tracked mutably in `SymTab.fileLazy`). -/
structure InputFile where
  id : Nat
  isBitcode : Bool
  deriving DecidableEq, Repr

/-- The tagged union of symbol kinds, mirroring the closed `Symbol` hierarchy
(`Undefined`, `LazyArchive`, `LazyObject`, `LazyDLLSymbol`, `DefinedRegular`,
`DefinedAbsolute`, `DefinedCommon`, `DefinedSynthetic`, `DefinedImportData`,
`DefinedImportThunk`, `DefinedLocalImport`).  `blank` is the freshly inserted
slot before the caller initializes it (the source leaves the `SymbolUnion`
uninitialized at that point).  `weakAlias` stores the arena index of the
aliased symbol. -/
inductive SymbolKind where
  | blank
  | undef (weakAlias : Option Nat) (isAntiDep : Bool)
  | lazyArchive (file : Nat) (memberSym : Nat)
  | lazyObject (file : Nat)
  | lazyDLL (file : Nat) (dllSym : Nat)
  | definedRegular (file : Option Nat) (isCOMDAT : Bool) (chunk : Option Nat) (value : Nat)
  | definedAbsolute (va : Nat)
  | definedCommon (file : Option Nat) (size : Nat)
  | definedSynthetic (chunk : Nat)
  | definedImportData (file : Nat)
  | definedImportThunk (file : Nat)
  | definedLocalImport (target : Nat)
  deriving DecidableEq, Repr

namespace SymbolKind

/-- `Symbol::isLazy()`: one of the three lazy kinds. -/
def isLazy : SymbolKind → Bool
  | lazyArchive _ _ => true
  | lazyObject _ => true
  | lazyDLL _ _ => true
  | _ => false

/-- `isa<Defined>(s)`: any of the defined kinds. -/
def isDefined : SymbolKind → Bool
  | definedRegular _ _ _ _ => true
  | definedAbsolute _ => true
  | definedCommon _ _ => true
  | definedSynthetic _ => true
  | definedImportData _ => true
  | definedImportThunk _ => true
  | definedLocalImport _ => true
  | _ => false

/-- `isa<DefinedCOFF>(s)`: the COFF-symbol-backed defined kinds
(`DefinedRegular` and `DefinedCommon`), per the `Symbol::Kind` layout in
`Symbols.h`. -/
def isDefinedCOFF : SymbolKind → Bool
  | definedRegular _ _ _ _ => true
  | definedCommon _ _ => true
  | _ => false

/-- `isa<Undefined>(s)`. -/
def isUndef : SymbolKind → Bool
  | undef _ _ => true
  | _ => false

/-- `isa<DefinedRegular>(s)`. -/
def isRegular : SymbolKind → Bool
  | definedRegular _ _ _ _ => true
  | _ => false

end SymbolKind

/-- A symbol record: the immutable name, the current kind variant, and the
shared per-symbol flags that live outside the variant. -/
structure Symbol where
  name : String
  kind : SymbolKind
  isUsedInRegularObj : Bool
  pendingArchiveLoad : Bool
  isWeak : Bool
  canInline : Bool
  isGCRoot : Bool
  isRuntimePseudoReloc : Bool
  deriving DecidableEq, Repr

/-- The blank symbol produced by `insert` for a fresh name (flags per
`SymbolTable::insert`: `isUsedInRegularObj = false`,
`pendingArchiveLoad = false`, `canInline = true`). -/
def blankSymbol (n : String) : Symbol :=
  ⟨n, SymbolKind.blank, false, false, false, true, false, false⟩

/-- Diagnostic severity (`DiagLevel`). -/
inductive DiagLevel where
  | err
  | warn
  deriving DecidableEq, Repr

/-- A reference location extracted for an undefined-symbol diagnostic: an
optional `file:line` from debug info, the optional containing symbol, and the
name of the referencing file (the three shapes of ">>> referenced by" lines
built by `getSymbolLocations`). -/
structure RefLocation where
  fileLine : Option (String × Nat)
  containingSym : Option Nat
  fileName : String
  deriving DecidableEq, Repr

/-- A diagnostic record (the text formatting of the source is abstracted into
structured data). `undefinedSymbol` keeps the displayed locations and the
total number of references found (`numRefs`); the source prints
`numRefs - displayed` as ">>> referenced N more times" when positive. -/
inductive Diag where
  | duplicateSymbol (level : DiagLevel) (symName : String)
  | undefinedSymbol (level : DiagLevel) (sym : Nat) (locations : List RefLocation) (numRefs : Nat)
  | rootUndefined (level : DiagLevel) (sym : Nat)
  | localImportWarn (sym : Nat)
  | autoImportFailed (symName : String)
  deriving DecidableEq, Repr

/-- Fatal errors abort the whole link (`Fatal(ctx)`). -/
inductive LinkFatal where
  | duplicateOrdinal (exportName : String)
  | tooManyExports (got : Nat) (maxAllowed : Nat)
  | altNameInvalid (arg : String)
  | altNameConflict (arg : String)
  deriving DecidableEq, Repr

/-- Pre-parsed configuration consumed by the engine (`ctx.config`). -/
structure Config where
  forceUnresolved : Bool
  forceMultiple : Bool
  autoImport : Bool
  warnLocallyDefinedImported : Bool
  wordsize : Nat
  gcroot : List Nat
  deriving DecidableEq, Repr

/-- `errorOrWarn`: unresolved-symbol diagnostics degrade to warnings under
`/force` (`forceUnresolved`). -/
def errorOrWarnLevel (cfg : Config) : DiagLevel :=
  if cfg.forceUnresolved then DiagLevel.warn else DiagLevel.err

/-- Metadata of a section chunk used by the MinGW auto-import `.refptr.`
rewrite: size, reloc count, the first symbol of the chunk, and liveness. -/
structure ChunkRec where
  isSection : Bool
  size : Nat
  relocCount : Nat
  firstSymbol : Option Nat
  live : Bool
  deriving DecidableEq, Repr

/-- A relocation as consumed by undefined-diagnostic location lookup: the
symbol-table index it refers to, the debug-info `file:line` resolved at its
address (if any), and the containing symbol found by `getSymbol` (if any). -/
structure RelocInfo where
  symbolIndex : Nat
  fileLine : Option (String × Nat)
  containingSym : Option Nat
  deriving DecidableEq, Repr

/-- A chunk as iterated by `getSymbolLocations`: only `SectionChunk`s carry
relocations; other chunk types are skipped by the `dyn_cast`. -/
inductive DiagChunk where
  | sectionChunk (relocs : List RelocInfo)
  | otherChunk
  deriving DecidableEq, Repr

/-- An object file registered in `ctx.objFileInstances`: its display name,
its symbol array (entries are arena indices, `none` for null slots), and its
chunks (for reference-location extraction). -/
structure ObjFileRec where
  fileName : String
  symbols : List (Option Nat)
  chunks : List DiagChunk
  deriving DecidableEq, Repr

/-- A bitcode file registered in `bitcodeFileInstances`: display name, source
file name from its module, and its symbol array. -/
structure BitcodeFileRec where
  fileName : String
  sourceName : String
  symbols : List (Option Nat)
  deriving DecidableEq, Repr

/-- The whole-link symbol table state. `arena` owns all `Symbol` storage
(indices are stable symbol handles); `symMap` maps names to arena indices;
`loadRequests` records every `addMember`/`addFile`/`makeImport` callback into
the loader, and `loaded` the set of members the loader actually materializes;
`alternateNames` is the `/alternatename` map. -/
structure SymTab where
  arena : List Symbol
  symMap : List (String × Nat)
  fileLazy : List (Nat × Bool)
  chunks : List (Nat × ChunkRec)
  objFiles : List ObjFileRec
  bitcodeFiles : List BitcodeFileRec
  loadRequests : List (Nat × Option Nat)
  loaded : List (Nat × Option Nat)
  diags : List Diag
  alternateNames : List (String × String)
  config : Config
  deriving DecidableEq, Repr

/-- A fresh symbol table for one link session. -/
def SymTab.emptyTab (cfg : Config) : SymTab :=
  ⟨[], [], [], [], [], [], [], [], [], [], cfg⟩

/-- `symMap` lookup (`find` without the not-found diagnostics). -/
def lookupName (st : SymTab) (n : String) : Option Nat :=
  st.symMap.lookup n

/-- Dereference an arena index (a `Symbol *`). Out-of-range indices never
occur for indices produced by `insert`. -/
def SymTab.symAt (st : SymTab) (i : Nat) : Symbol :=
  st.arena.getD i (blankSymbol "")

/-- In-place update of one arena slot (the address stays valid, matching
placement-replace semantics). -/
def listModify {α : Type} (f : α → α) : Nat → List α → List α
  | _, [] => []
  | 0, a :: l => f a :: l
  | n + 1, a :: l => a :: listModify f n l

/-- Apply `f` to the symbol stored at arena index `i`. -/
def SymTab.modifySym (st : SymTab) (i : Nat) (f : Symbol → Symbol) : SymTab :=
  { st with arena := listModify f i st.arena }

/-- `replaceSymbol<T>`: overwrite the variant in place.  Shared flags
(`isUsedInRegularObj`, `canInline`, `isGCRoot`) survive the replacement; the
constructor of the new variant re-initializes `pendingArchiveLoad`,
`isRuntimePseudoReloc` and sets `isWeak` (only `DefinedRegular` takes a weak
flag). -/
def SymTab.replaceSym (st : SymTab) (i : Nat) (k : SymbolKind) (weak : Bool) : SymTab :=
  st.modifySym i fun s =>
    ⟨s.name, k, s.isUsedInRegularObj, false, weak, s.canInline, s.isGCRoot, false⟩

/-- `Symbol::replaceKeepingName(other, size)`: copy the whole record of
`other` over slot `i`, restoring the original name. -/
def SymTab.replaceKeepingName (st : SymTab) (i : Nat) (src : Symbol) : SymTab :=
  st.modifySym i fun s => { src with name := s.name }

/-- Append a diagnostic (diagnostics accumulate in emission order). -/
def SymTab.addDiag (st : SymTab) (d : Diag) : SymTab :=
  { st with diags := st.diags ++ [d] }

/-- Record a materialization request to the loader.
Modelled from the spec: the loader ("a callback capability to request
'please materialize this lazy member now'", §6) materializes each distinct
member once — archives provide pull-in-once semantics, so a repeated request
for an already-requested member is ignored (`ArchiveFile::addMember`'s `seen`
set lives in the loader sources, outside the extracted file). -/
def SymTab.requestLoad (st : SymTab) (f : Nat) (member : Option Nat) : SymTab :=
  let st' := { st with loadRequests := st.loadRequests ++ [(f, member)] }
  if (f, member) ∈ st'.loaded then st'
  else { st' with loaded := st'.loaded ++ [(f, member)] }

/-- Lazy flag of an input file (`InputFile::lazy`). -/
def SymTab.isFileLazy (st : SymTab) (f : Nat) : Bool :=
  (st.fileLazy.lookup f).getD false

/-- Set the lazy flag of an input file. -/
def SymTab.setFileLazy (st : SymTab) (f : Nat) (b : Bool) : SymTab :=
  { st with fileLazy := (f, b) :: st.fileLazy.filter (fun p => p.1 ≠ f) }

/-- `SymbolTable::insert(StringRef name)`: insert-or-find.  A fresh name gets
a new blank arena slot; an existing name returns its slot.  The returned
`Bool` is `wasInserted`.  (The EC-only `EXP+` bookkeeping is elided on
non-EC targets.) -/
def SymTab.insert (st : SymTab) (name : String) : SymTab × Nat × Bool :=
  match lookupName st name with
  | some i => (st, i, false)
  | none =>
      let idx := st.arena.length
      ({ st with
          arena := st.arena ++ [blankSymbol name],
          symMap := (name, idx) :: st.symMap },
        idx, true)

/-- `SymbolTable::insert(StringRef name, InputFile *file)`: additionally
marks the slot `isUsedInRegularObj` unless the referencing file is a bitcode
module. -/
def SymTab.insertFile (st : SymTab) (name : String) (file : Option InputFile) :
    SymTab × Nat × Bool :=
  let r := st.insert name
  if file.elim true (fun f => !f.isBitcode) then
    (r.1.modifySym r.2.1 (fun s => { s with isUsedInRegularObj := true }), r.2.1, r.2.2)
  else r

/-- `forceLazy`: mark the slot pending and ask the loader to materialize the
owning archive member / lazy object / DLL import.  For a lazy object the
request happens only if the file is still lazy, and the file's lazy flag is
cleared. -/
def forceLazy (st : SymTab) (i : Nat) : SymTab :=
  let st1 := st.modifySym i fun s => { s with pendingArchiveLoad := true }
  match (st1.symAt i).kind with
  | SymbolKind.lazyArchive f m => st1.requestLoad f (some m)
  | SymbolKind.lazyObject f =>
      if !st1.isFileLazy f then st1
      else (st1.setFileLazy f false).requestLoad f none
  | SymbolKind.lazyDLL f m => st1.requestLoad f (some m)
  | _ => st1

/-- `SymbolTable::reportDuplicate`: a duplicate-symbol diagnostic,
downgraded to a warning under `/force:multiple` (`forceMultiple`). -/
def SymTab.reportDuplicate (st : SymTab) (symName : String) : SymTab :=
  st.addDiag (Diag.duplicateSymbol
    (if st.config.forceMultiple then DiagLevel.warn else DiagLevel.err) symName)

/-- `SymbolTable::addUndefined(name, f, overrideLazy)`: a fresh slot (or a
lazy slot under `overrideLazy`) becomes `Undefined`; an existing lazy slot is
otherwise forced. -/
def SymTab.addUndefined (st : SymTab) (name : String) (f : Option InputFile)
    (overrideLazy : Bool) : SymTab × Nat :=
  let r := st.insertFile name f
  let st1 := r.1
  let s := r.2.1
  if r.2.2 || ((st1.symAt s).kind.isLazy && overrideLazy) then
    (st1.replaceSym s (SymbolKind.undef none false) false, s)
  else if (st1.symAt s).kind.isLazy then
    (forceLazy st1 s, s)
  else (st1, s)

/-- `SymbolTable::addLazyArchive` (on a non-EC machine, where the
`checkLazyECPair` guard is dead code): a fresh slot becomes `LazyArchive`;
an existing `Undefined` with no weak alias and no pending load marks the
slot pending and pulls in the member. -/
def SymTab.addLazyArchive (st : SymTab) (f : Nat) (memberSym : Nat) (name : String) :
    SymTab :=
  let r := st.insert name
  let st1 := r.1
  let s := r.2.1
  if r.2.2 then st1.replaceSym s (SymbolKind.lazyArchive f memberSym) false
  else
    let sy := st1.symAt s
    match sy.kind with
    | SymbolKind.undef wa _ =>
        if wa.isSome || sy.pendingArchiveLoad then st1
        else
          ((st1.modifySym s fun x => { x with pendingArchiveLoad := true }).requestLoad
            f (some memberSym))
    | _ => st1

/-- `SymbolTable::addLazyObject` (non-EC): like `addLazyArchive`, but forcing
clears the file's lazy flag and hands the whole file to the driver. -/
def SymTab.addLazyObject (st : SymTab) (f : InputFile) (name : String) : SymTab :=
  let r := st.insertFile name (some f)
  let st1 := r.1
  let s := r.2.1
  if r.2.2 then st1.replaceSym s (SymbolKind.lazyObject f.id) false
  else
    let sy := st1.symAt s
    match sy.kind with
    | SymbolKind.undef wa _ =>
        if wa.isSome || sy.pendingArchiveLoad then st1
        else
          (((st1.modifySym s fun x => { x with pendingArchiveLoad := true }).setFileLazy
              f.id false).requestLoad f.id none)
    | _ => st1

/-- `SymbolTable::addLazyDLLSymbol` (non-EC). -/
def SymTab.addLazyDLLSymbol (st : SymTab) (f : Nat) (dllSym : Nat) (name : String) :
    SymTab :=
  let r := st.insert name
  let st1 := r.1
  let s := r.2.1
  if r.2.2 then st1.replaceSym s (SymbolKind.lazyDLL f dllSym) false
  else
    let sy := st1.symAt s
    match sy.kind with
    | SymbolKind.undef wa _ =>
        if wa.isSome || sy.pendingArchiveLoad then st1
        else
          ((st1.modifySym s fun x => { x with pendingArchiveLoad := true }).requestLoad
            f (some dllSym))
    | _ => st1

/-- `SymbolTable::addRegular(f, n, sym, c, sectionOffset, isWeak)`: replace
unless the slot already holds a non-weak `DefinedRegular`, in which case a
non-weak incomer is a duplicate. -/
def SymTab.addRegular (st : SymTab) (f : Option InputFile) (name : String)
    (value : Nat) (c : Option Nat) (isWeakNew : Bool) : SymTab × Nat :=
  let r := st.insertFile name f
  let st1 := r.1
  let s := r.2.1
  let sy := st1.symAt s
  if r.2.2 || !sy.kind.isRegular || sy.isWeak then
    (st1.replaceSym s
        (SymbolKind.definedRegular (f.map InputFile.id) false c value) isWeakNew, s)
  else if !isWeakNew then (st1.reportDuplicate sy.name, s)
  else (st1, s)

/-- `SymbolTable::addComdat`: a fresh or non-`DefinedRegular` slot takes the
COMDAT definition (returning `true`); an existing `DefinedRegular` is kept
(returning `false`), with a duplicate diagnostic only when it is not COMDAT. -/
def SymTab.addComdat (st : SymTab) (f : Option InputFile) (name : String)
    (value : Nat) : SymTab × Nat × Bool :=
  let r := st.insertFile name f
  let st1 := r.1
  let s := r.2.1
  let sy := st1.symAt s
  if r.2.2 || !sy.kind.isRegular then
    (st1.replaceSym s
        (SymbolKind.definedRegular (f.map InputFile.id) true none value) false, s, true)
  else
    match sy.kind with
    | SymbolKind.definedRegular _ isCOMDAT _ _ =>
        if !isCOMDAT then (st1.reportDuplicate sy.name, s, false)
        else (st1, s, false)
    | _ => (st1, s, false)

/-- `SymbolTable::addCommon`: a non-COFF slot takes the common definition; a
smaller existing `DefinedCommon` is superseded by a strictly larger one. -/
def SymTab.addCommon (st : SymTab) (f : Option InputFile) (name : String)
    (size : Nat) : SymTab × Nat :=
  let r := st.insertFile name f
  let st1 := r.1
  let s := r.2.1
  let sy := st1.symAt s
  if r.2.2 || !sy.kind.isDefinedCOFF then
    (st1.replaceSym s (SymbolKind.definedCommon (f.map InputFile.id) size) false, s)
  else
    match sy.kind with
    | SymbolKind.definedCommon _ sz =>
        if size > sz then
          (st1.replaceSym s (SymbolKind.definedCommon (f.map InputFile.id) size) false, s)
        else (st1, s)
    | _ => (st1, s)

/-- `SymbolTable::addAbsolute(n, va)`: fresh/undefined/lazy slots take the
absolute value; an existing `DefinedAbsolute` with a different value is a
duplicate; other non-COFF defined kinds are duplicates; COFF-backed defined
kinds are silently kept. -/
def SymTab.addAbsolute (st : SymTab) (name : String) (va : Nat) : SymTab × Nat :=
  let r := st.insertFile name none
  let st1 := (r.1.modifySym r.2.1 fun s => { s with isUsedInRegularObj := true })
  let s := r.2.1
  let sy := st1.symAt s
  if r.2.2 || sy.kind.isUndef || sy.kind.isLazy then
    (st1.replaceSym s (SymbolKind.definedAbsolute va) false, s)
  else
    match sy.kind with
    | SymbolKind.definedAbsolute va0 =>
        if va0 ≠ va then (st1.reportDuplicate sy.name, s) else (st1, s)
    | k => if !k.isDefinedCOFF then (st1.reportDuplicate sy.name, s) else (st1, s)

/-- `SymbolTable::addSynthetic`. -/
def SymTab.addSynthetic (st : SymTab) (name : String) (c : Nat) : SymTab × Nat :=
  let r := st.insertFile name none
  let st1 := (r.1.modifySym r.2.1 fun s => { s with isUsedInRegularObj := true })
  let s := r.2.1
  let sy := st1.symAt s
  if r.2.2 || sy.kind.isUndef || sy.kind.isLazy then
    (st1.replaceSym s (SymbolKind.definedSynthetic c) false, s)
  else if !sy.kind.isDefinedCOFF then (st1.reportDuplicate sy.name, s)
  else (st1, s)

/-- `SymbolTable::addImportData`: fresh/undefined/lazy slots take the import;
anything else is a duplicate (the source returns `nullptr` then, modelled by
the `Bool`). -/
def SymTab.addImportData (st : SymTab) (name : String) (f : Nat) :
    SymTab × Nat × Bool :=
  let r := st.insertFile name none
  let st1 := (r.1.modifySym r.2.1 fun s => { s with isUsedInRegularObj := true })
  let s := r.2.1
  let sy := st1.symAt s
  if r.2.2 || sy.kind.isUndef || sy.kind.isLazy then
    (st1.replaceSym s (SymbolKind.definedImportData f) false, s, true)
  else (st1.reportDuplicate sy.name, s, false)

/-- `SymbolTable::addImportThunk`. -/
def SymTab.addImportThunk (st : SymTab) (name : String) (f : Nat) :
    SymTab × Nat × Bool :=
  let r := st.insertFile name none
  let st1 := (r.1.modifySym r.2.1 fun s => { s with isUsedInRegularObj := true })
  let s := r.2.1
  let sy := st1.symAt s
  if r.2.2 || sy.kind.isUndef || sy.kind.isLazy then
    (st1.replaceSym s (SymbolKind.definedImportThunk f) false, s, true)
  else (st1.reportDuplicate sy.name, s, false)

/-! ### Undefined-symbol diagnostic aggregation -/

/-- The reloc scan inside `getSymbolLocations(ObjFile, symIndex, maxStrings)`:
every relocation against `symIndex` is counted; a location string is pushed
only while fewer than `maxStrings` are collected, and only when debug info or
a containing symbol is available for the relocation. -/
def scanRelocs (fileName : String) (symIndex maxStrings : Nat) :
    List RelocInfo → List RefLocation × Nat → List RefLocation × Nat
  | [], acc => acc
  | r :: rest, (locs, n) =>
      if r.symbolIndex = symIndex then
        let n' := n + 1
        if locs.length ≥ maxStrings then
          scanRelocs fileName symIndex maxStrings rest (locs, n')
        else
          match r.fileLine with
          | some fl =>
              scanRelocs fileName symIndex maxStrings rest
                (locs ++ [⟨some fl, r.containingSym, fileName⟩], n')
          | none =>
              match r.containingSym with
              | some s =>
                  scanRelocs fileName symIndex maxStrings rest
                    (locs ++ [⟨none, some s, fileName⟩], n')
              | none => scanRelocs fileName symIndex maxStrings rest (locs, n')
      else scanRelocs fileName symIndex maxStrings rest (locs, n)

/-- Iterate the file's chunks; only `SectionChunk`s carry relocations. -/
def scanChunks (fileName : String) (symIndex maxStrings : Nat) :
    List DiagChunk → List RefLocation × Nat → List RefLocation × Nat
  | [], acc => acc
  | DiagChunk.sectionChunk rs :: rest, acc =>
      scanChunks fileName symIndex maxStrings rest
        (scanRelocs fileName symIndex maxStrings rs acc)
  | DiagChunk.otherChunk :: rest, acc =>
      scanChunks fileName symIndex maxStrings rest acc

/-- `getSymbolLocations(ObjFile*, symIndex, maxStrings)`: pairs the (capped)
location list with the total number of references found; a file with
relocations but no resolvable location info falls back to one bare
"referenced by file" location counted once. -/
def getSymbolLocationsObj (file : ObjFileRec) (symIndex maxStrings : Nat) :
    List RefLocation × Nat :=
  let r := scanChunks file.fileName symIndex maxStrings file.chunks ([], 0)
  if maxStrings = 0 then ([], r.2)
  else if r.2 = 0 then ([⟨none, none, file.fileName⟩], 1)
  else (r.1, r.2)

/-- `getSymbolLocations(BitcodeFile*)` via the `InputFile` dispatcher: one
"referenced by" location (its text carries the module's source-file name),
resized to the budget, always counted as one reference. -/
def getSymbolLocationsBitcode (file : BitcodeFileRec) (maxStrings : Nat) :
    List RefLocation × Nat :=
  let locs : List RefLocation := [⟨none, none, file.fileName⟩]
  (if maxStrings = 0 then [] else locs, 1)

/-- A referencing file inside an `UndefinedDiag`. -/
inductive DiagFile where
  | objFile (f : ObjFileRec)
  | bitcodeFile (f : BitcodeFileRec)
  deriving DecidableEq, Repr

/-- `getSymbolLocations(InputFile*, symIndex, maxStrings)`. -/
def getSymbolLocationsFile (f : DiagFile) (symIndex maxStrings : Nat) :
    List RefLocation × Nat :=
  match f with
  | DiagFile.objFile o => getSymbolLocationsObj o symIndex maxStrings
  | DiagFile.bitcodeFile b => getSymbolLocationsBitcode b maxStrings

/-- `UndefinedDiag::File`: a referencing file and the index of the undefined
symbol in that file. -/
structure UDFileRef where
  file : DiagFile
  symIndex : Nat
  deriving DecidableEq, Repr

/-- `UndefinedDiag`: all files referencing one undefined symbol. -/
structure UndefinedDiag where
  sym : Nat
  files : List UDFileRef
  deriving DecidableEq, Repr

/-- `maxUndefReferences`: at most 3 reference locations are displayed per
undefined symbol. -/
def maxUndefReferences : Nat := 3

/-- The accumulation loop of `reportUndefinedSymbol`: each file contributes
up to the remaining budget of locations plus its total reference count. -/
def accumLocations : List UDFileRef → List RefLocation × Nat → List RefLocation × Nat
  | [], acc => acc
  | fr :: rest, (locs, numRefs) =>
      let r := getSymbolLocationsFile fr.file fr.symIndex
        (maxUndefReferences - locs.length)
      accumLocations rest (locs ++ r.1, numRefs + r.2)

/-- `SymbolTable::reportUndefinedSymbol`: one diagnostic per undefined
symbol, at `errorOrWarn` severity, listing the batched locations and the
total reference count (the source prints "referenced N more times" when the
total exceeds the displayed count; the `__imp_` lazy-symbol NOTE hint is
extra text on the same diagnostic and is not modelled separately). -/
def reportUndefinedSymbol (st : SymTab) (ud : UndefinedDiag) : Diag :=
  let r := accumLocations ud.files ([], 0)
  Diag.undefinedSymbol (errorOrWarnLevel st.config) ud.sym r.1 r.2

/-- Append a reference to the `UndefinedDiag` of symbol `s`, creating it on
first sight (the source keeps a `firstDiag` index map for O(1) lookup; the
resulting grouped structure is the same). -/
def addRefToDiags (uds : List UndefinedDiag) (s : Nat) (fr : UDFileRef) :
    List UndefinedDiag :=
  match uds with
  | [] => [⟨s, [fr]⟩]
  | ud :: rest =>
      if ud.sym = s then ⟨ud.sym, ud.files ++ [fr]⟩ :: rest
      else ud :: addRefToDiags rest s fr

/-- `processFile` inside `reportProblemSymbols`: walk one file's symbol array
(with its running symbol index), group undefined references into
`UndefinedDiag`s, and emit locally-defined-symbol-imported warnings. -/
def processSyms (undefs : List Nat) (localImports : Option (List (Nat × Nat)))
    (file : DiagFile) :
    List (Option Nat) → Nat → List Diag × List UndefinedDiag →
      List Diag × List UndefinedDiag
  | [], _, acc => acc
  | none :: rest, idx, acc => processSyms undefs localImports file rest (idx + 1) acc
  | some s :: rest, idx, (ds, uds) =>
      let uds' := if s ∈ undefs then addRefToDiags uds s ⟨file, idx⟩ else uds
      let ds' :=
        match localImports with
        | some li =>
            match li.lookup s with
            | some imp => ds ++ [Diag.localImportWarn imp]
            | none => ds
        | none => ds
      processSyms undefs localImports file rest (idx + 1) (ds', uds')

/-- `SymbolTable::reportProblemSymbols`: root-set diagnostics first, then one
batched `undefined symbol` diagnostic per symbol in `undefs`, grouped across
all object files (and bitcode files when requested). -/
def reportProblemSymbols (st : SymTab) (undefs : List Nat)
    (localImports : Option (List (Nat × Nat))) (needBitcodeFiles : Bool) : SymTab :=
  if undefs.isEmpty && localImports.elim true List.isEmpty then st
  else
    let rootDiags := st.config.gcroot.foldl
      (fun ds b =>
        let ds1 :=
          if b ∈ undefs then ds ++ [Diag.rootUndefined (errorOrWarnLevel st.config) b]
          else ds
        match localImports with
        | some li =>
            match li.lookup b with
            | some imp => ds1 ++ [Diag.localImportWarn imp]
            | none => ds1
        | none => ds1) []
    let acc1 := st.objFiles.foldl
      (fun acc f => processSyms undefs localImports (DiagFile.objFile f) f.symbols 0 acc)
      ([], [])
    let acc2 :=
      if needBitcodeFiles then
        st.bitcodeFiles.foldl
          (fun acc f =>
            processSyms undefs localImports (DiagFile.bitcodeFile f) f.symbols 0 acc)
          acc1
      else acc1
    let undefMsgs := acc2.2.map (reportUndefinedSymbol st)
    { st with diags := st.diags ++ rootDiags ++ acc2.1 ++ undefMsgs }

/-! ### Weak aliases and the final resolution pass -/

/-- Modelled from the spec: `Undefined::getWeakAlias` (in `Symbols.h`,
outside the extracted sources) follows the weak-alias chain through
`Undefined` symbols, cycle-guarded, returning the first non-`Undefined`
symbol reached, if any ("alias chains are resolved transitively"). -/
def weakAliasTargetGo (st : SymTab) : Nat → Option Nat → Option Nat
  | 0, _ => none
  | _, none => none
  | fuel + 1, some a =>
      match (st.symAt a).kind with
      | SymbolKind.undef wa _ => weakAliasTargetGo st fuel wa
      | _ => some a

/-- The chain target of an `Undefined` slot's weak alias. -/
def weakAliasTarget (st : SymTab) (i : Nat) : Option Nat :=
  match (st.symAt i).kind with
  | SymbolKind.undef wa _ => weakAliasTargetGo st (st.arena.length + 1) wa
  | _ => none

/-- Modelled from the spec: `Undefined::resolveWeakAlias` (in `Symbols.cpp`,
outside the extracted sources) — when the chain target is a defined symbol,
the undefined slot is replaced in place by the target's record, keeping its
own name, and the call reports success. -/
def resolveWeakAliasInPlace (st : SymTab) (i : Nat) : SymTab × Bool :=
  match weakAliasTarget st i with
  | some t =>
      if (st.symAt t).kind.isDefined then (st.replaceKeepingName i (st.symAt t), true)
      else (st, false)
  | none => (st, false)

/-- `SymbolTable::impSymbol`: the defined `__imp_`-prefixed counterpart of a
name (never for names already `__imp_`-prefixed). -/
def impSymbol (st : SymTab) (name : String) : Option Nat :=
  if name.startsWith "__imp_" then none
  else
    match lookupName st ("__imp_" ++ name) with
    | some i => if (st.symAt i).kind.isDefined then some i else none
    | none => none

/-- Set a chunk's liveness. -/
def SymTab.setChunkLive (st : SymTab) (c : Nat) (b : Bool) : SymTab :=
  { st with
      chunks := st.chunks.map
        (fun p => if p.1 = c then (p.1, { p.2 with live := b }) else p) }

/-- `SymbolTable::handleMinGWAutomaticImport`: rewrite a still-undefined
reference to point at the import-address-table entry of its `__imp_`
counterpart, flagging it `isRuntimePseudoReloc`; a single-pointer
`.refptr.<name>` chunk referencing only this symbol is elided and redirected
the same way. -/
def handleMinGWAutomaticImport (st : SymTab) (si : Nat) (name : String) :
    SymTab × Bool :=
  match impSymbol st name with
  | none => (st, false)
  | some impIdx =>
      let imp := st.symAt impIdx
      let goodKind : Bool :=
        match imp.kind with
        | SymbolKind.definedImportData _ => true
        | SymbolKind.definedRegular _ _ _ _ => true
        | _ => false
      if !goodKind then (st.addDiag (Diag.autoImportFailed name), false)
      else
        let st1 := (st.replaceKeepingName si imp).modifySym si
          (fun s => { s with isRuntimePseudoReloc := true })
        let st2 :=
          match lookupName st1 (".refptr." ++ name) with
          | some rIdx =>
              match (st1.symAt rIdx).kind with
              | SymbolKind.definedRegular _ _ (some c) _ =>
                  match st1.chunks.lookup c with
                  | some cr =>
                      if cr.size = st1.config.wordsize && cr.isSection &&
                          cr.relocCount = 1 && cr.firstSymbol = some si then
                        (st1.setChunkLive c false).replaceKeepingName rIdx imp
                      else st1
                  | none => st1
              | _ => st1
          | none => st1
        (st2, true)

/-- Does `pat` occur as a contiguous run inside the list? -/
def listHasInfix (pat : List Char) : List Char → Bool
  | [] => pat.isEmpty
  | c :: cs => pat.isPrefixOf (c :: cs) || listHasInfix pat cs

/-- Does the name contain the Microsoft precompiled-header marker? -/
def containsPchSym (s : String) : Bool :=
  listHasInfix "_PchSym_".data s.data

/-- Accumulator of `resolveRemainingUndefines`: the deferred undefined set,
the locally-defined-imported map, and the weak-aliased symbols handed back to
the caller. -/
structure ResolveAcc where
  undefs : List Nat
  localImports : List (Nat × Nat)
  aliases : List Nat
  deriving DecidableEq, Repr

/-- `findLocalSym` inside `resolveRemainingUndefines`: a lookup that resolves
a still-undefined slot through its weak alias on the fly. -/
def findLocalSym (st : SymTab) (n : String) : SymTab × Option Nat :=
  match lookupName st n with
  | none => (st, none)
  | some k =>
      match (st.symAt k).kind with
      | SymbolKind.undef _ _ =>
          let r := resolveWeakAliasInPlace st k
          if r.2 then (r.1, some k) else (r.1, none)
      | _ => (st, some k)

/-- The tail of one `resolveRemainingUndefines` iteration (after the
`__imp_` compatibility rule): skip precompiled-header symbols, try MinGW
auto-import, then either synthesize a dummy absolute-zero definition under
`/force` or leave the slot undefined — recording the symbol for reporting in
both cases. -/
def resolveOneTail (st : SymTab) (acc : ResolveAcc) (i : Nat) (name : String) :
    SymTab × ResolveAcc :=
  if containsPchSym name then (st, acc)
  else
    let r :=
      if st.config.autoImport then handleMinGWAutomaticImport st i name
      else (st, false)
    if r.2 then (r.1, acc)
    else
      let st2 :=
        if r.1.config.forceUnresolved then
          r.1.replaceSym i (SymbolKind.definedAbsolute 0) false
        else r.1
      (st2, { acc with undefs := acc.undefs ++ [i] })

/-- The `__imp_` branch of one `resolveRemainingUndefines` iteration: an
`__imp_`-prefixed undefined whose unprefixed counterpart is defined becomes a
`DefinedLocalImport` (MSVC compatibility), recorded in `localImports`.
(ARM64EC mangled retries are dead code on non-EC targets.) -/
def resolveOneImp (st : SymTab) (acc : ResolveAcc) (i : Nat) (name : String) :
    SymTab × ResolveAcc :=
  if name.startsWith "__imp_" then
    let r := findLocalSym st (name.drop 6)
    match r.2 with
    | some impIdx =>
        if (r.1.symAt impIdx).kind.isDefined then
          ((r.1.replaceSym i (SymbolKind.definedLocalImport impIdx) false),
            { acc with localImports := acc.localImports ++ [(i, impIdx)] })
        else resolveOneTail r.1 acc i name
    | none => resolveOneTail r.1 acc i name
  else resolveOneTail st acc i name

/-- One iteration of the `resolveRemainingUndefines` loop over `symMap`. -/
def resolveOne (stAcc : SymTab × ResolveAcc) (i : Nat) : SymTab × ResolveAcc :=
  let st := stAcc.1
  let acc := stAcc.2
  let sy := st.symAt i
  match sy.kind with
  | SymbolKind.undef _ _ =>
      if !sy.isUsedInRegularObj then (st, acc)
      else if (weakAliasTarget st i).isSome then
        (st, { acc with aliases := acc.aliases ++ [i] })
      else resolveOneImp st acc i sy.name
  | _ => (st, acc)

/-- `SymbolTable::resolveRemainingUndefines`: process every symbol, then
report the still-undefined set (and, when enabled, the locally-defined
imports); returns the weak-aliased symbols for the caller. -/
def resolveRemainingUndefines (st : SymTab) : SymTab × List Nat :=
  let idxs := st.symMap.map Prod.snd
  let r := idxs.foldl resolveOne (st, ⟨[], [], []⟩)
  let st1 := reportProblemSymbols r.1 r.2.undefs
    (if st.config.warnLocallyDefinedImported then some r.2.localImports else none)
    false
  (st1, r.2.aliases)

/-- `Undefined::setWeakAlias` (field update, not a kind replacement). -/
def setWeakAlias (st : SymTab) (i : Nat) (t : Nat) (antiDep : Bool) : SymTab :=
  st.modifySym i fun s =>
    match s.kind with
    | SymbolKind.undef _ _ => { s with kind := SymbolKind.undef (some t) antiDep }
    | _ => s

/-- One `/alternatename` pair in `resolveAlternateNames` (non-EC): give a
still-unaliased undefined source a weak alias to the destination, forcing a
lazy destination; destinations that are absent or unresolvably undefined are
skipped. -/
def resolveAlternateNamesStep (st : SymTab) (pr : String × String) : SymTab :=
  match lookupName st pr.1 with
  | none => st
  | some i =>
      match (st.symAt i).kind with
      | SymbolKind.undef wa _ =>
          if wa.isSome then st
          else
            match lookupName st pr.2 with
            | none => st
            | some t =>
                let tk := (st.symAt t).kind
                let skip : Bool :=
                  match tk with
                  | SymbolKind.undef twa tad => !twa.isSome || tad
                  | _ => false
                if skip then st
                else
                  let st1 := if tk.isLazy then forceLazy st t else st
                  setWeakAlias st1 i t false
      | _ => st

/-- `SymbolTable::resolveAlternateNames`. -/
def resolveAlternateNames (st : SymTab) : SymTab :=
  st.alternateNames.foldl resolveAlternateNamesStep st

/-! ### `/alternatename` parsing -/

/-- `StringRef::split('=')` on the character list: the part before the first
`=` and the part after it (the whole string and `""` when no `=` occurs). -/
def splitEqChars : List Char → List Char × List Char
  | [] => ([], [])
  | c :: cs =>
      if c = '=' then ([], cs)
      else
        let r := splitEqChars cs
        (c :: r.1, r.2)

/-- `s.split('=')`. -/
def splitEq (s : String) : String × String :=
  let r := splitEqChars s.data
  (String.mk r.1, String.mk r.2)

/-- `SymbolTable::parseAlternateName`: `<from>=<to>`; an empty half is a
fatal usage error; re-registering the same source with a different target is
a fatal conflict; re-registering the identical pair is a silent no-op (the
hinted `map::insert` never overwrites an existing key). -/
def parseAlternateName (m : List (String × String)) (s : String) :
    Except LinkFatal (List (String × String)) :=
  let r := splitEq s
  if r.1 = "" || r.2 = "" then Except.error (LinkFatal.altNameInvalid s)
  else
    match m.lookup r.1 with
    | some t =>
        if t ≠ r.2 then Except.error (LinkFatal.altNameConflict s)
        else Except.ok m
    | none => Except.ok ((r.1, r.2) :: m)

/-! ### Export ordinal finalization -/

/-- Where an export came from (`ExportSource`). -/
inductive ExportSource where
  | unset
  | directives
  | exportOpt
  | moduleDefinition
  deriving DecidableEq, Repr

/-- An `Export` record (layout per the spec's data model; its definition
lives in `Config.h`, outside the extracted sources). -/
structure Export where
  name : String
  extName : String
  exportAs : String
  forwardTo : String
  symbolName : String
  exportName : String
  ordinal : Nat
  noname : Bool
  data : Bool
  isPrivate : Bool
  constant : Bool
  source : ExportSource
  deriving DecidableEq, Repr

/-- The explicit-ordinal uniqueness loop at the start of `fixupExports`:
non-zero ordinals are collected into a set; a repeated one is a fatal
duplicate-ordinal error. -/
def checkOrdinalsGo (seen : List Nat) : List Export → Except LinkFatal Unit
  | [] => Except.ok ()
  | e :: es =>
      if e.ordinal = 0 then checkOrdinalsGo seen es
      else if e.ordinal ∈ seen then Except.error (LinkFatal.duplicateOrdinal e.name)
      else checkOrdinalsGo (e.ordinal :: seen) es

/-- The ordinal-uniqueness check of `fixupExports` (the remaining steps of
that function — decoration, name-based dedup, sort by name — do not assign
or modify ordinals). -/
def fixupExportsOrdinalCheck (exports : List Export) : Except LinkFatal Unit :=
  checkOrdinalsGo [] exports

/-- The assignment loop of `assignExportOrdinals`: each zero-ordinal export
receives the incremented running counter; returns the final counter and the
updated list. -/
def assignOrdinalsGo : Nat → List Export → Nat × List Export
  | m, [] => (m, [])
  | m, e :: es =>
      if e.ordinal = 0 then
        let r := assignOrdinalsGo (m + 1) es
        (r.1, { e with ordinal := m + 1 } :: r.2)
      else
        let r := assignOrdinalsGo m es
        (r.1, e :: r.2)

/-- The initial `max` scan of `assignExportOrdinals`. -/
def maxOrdinal (es : List Export) : Nat :=
  es.foldl (fun m e => max m e.ordinal) 0

/-- `SymbolTable::assignExportOrdinals`: seed the counter with the largest
existing ordinal, hand `counter+1, counter+2, …` to the zero-ordinal exports
in list order, and fail fatally when the final counter exceeds the 16-bit
maximum 65535. -/
def assignExportOrdinals (exports : List Export) : Except LinkFatal (List Export) :=
  let r := assignOrdinalsGo (maxOrdinal exports) exports
  if r.1 > 65535 then Except.error (LinkFatal.tooManyExports r.1 65535)
  else Except.ok r.2

/-! ### The resolution operations as a step relation -/

/-- One resolution-engine operation (the per-definition-source entry points
of the Resolution Policy Engine plus the finalization passes). -/
inductive LinkOp where
  | undefinedOp (name : String) (f : Option InputFile) (overrideLazy : Bool)
  | lazyArchiveOp (f : Nat) (memberSym : Nat) (name : String)
  | lazyObjectOp (f : InputFile) (name : String)
  | lazyDLLOp (f : Nat) (dllSym : Nat) (name : String)
  | regularOp (f : Option InputFile) (name : String) (value : Nat)
      (chunk : Option Nat) (isWeakDef : Bool)
  | comdatOp (f : Option InputFile) (name : String) (value : Nat)
  | commonOp (f : Option InputFile) (name : String) (size : Nat)
  | absoluteOp (name : String) (va : Nat)
  | syntheticOp (name : String) (chunk : Nat)
  | importDataOp (name : String) (f : Nat)
  | importThunkOp (name : String) (f : Nat)
  | resolveRemainingOp
  | resolveAlternatesOp
  deriving DecidableEq, Repr

/-- Apply one operation to the symbol table. -/
def applyOp (st : SymTab) : LinkOp → SymTab
  | LinkOp.undefinedOp n f ov => (st.addUndefined n f ov).1
  | LinkOp.lazyArchiveOp f m n => st.addLazyArchive f m n
  | LinkOp.lazyObjectOp f n => st.addLazyObject f n
  | LinkOp.lazyDLLOp f d n => st.addLazyDLLSymbol f d n
  | LinkOp.regularOp f n v c w => (st.addRegular f n v c w).1
  | LinkOp.comdatOp f n v => (st.addComdat f n v).1
  | LinkOp.commonOp f n sz => (st.addCommon f n sz).1
  | LinkOp.absoluteOp n va => (st.addAbsolute n va).1
  | LinkOp.syntheticOp n c => (st.addSynthetic n c).1
  | LinkOp.importDataOp n f => (st.addImportData n f).1
  | LinkOp.importThunkOp n f => (st.addImportThunk n f).1
  | LinkOp.resolveRemainingOp => (resolveRemainingUndefines st).1
  | LinkOp.resolveAlternatesOp => resolveAlternateNames st

/-- Run a sequence of operations. -/
def runOps (st : SymTab) : List LinkOp → SymTab
  | [] => st
  | op :: ops => runOps (applyOp st op) ops

/-- The spec's partial order on kinds: `Undefined < Lazy* < Defined*`
(a pre-initialization blank slot sits at the bottom). -/
def SymbolKind.level : SymbolKind → Nat
  | SymbolKind.blank => 0
  | SymbolKind.undef _ _ => 0
  | SymbolKind.lazyArchive _ _ => 1
  | SymbolKind.lazyObject _ => 1
  | SymbolKind.lazyDLL _ _ => 1
  | _ => 2

/-- The kind levels slot `i` passes through along a run (the state before
each remaining operation, ending with the final state). -/
def observedLevels (st : SymTab) (i : Nat) : List LinkOp → List Nat
  | [] => [(st.symAt i).kind.level]
  | op :: ops => (st.symAt i).kind.level :: observedLevels (applyOp st op) i ops

/-- Whether a sequence of operations avoids the `overrideLazy` form of
`addUndefined` (the one caller-requested downgrade in the interface). -/
def noOverrideLazy (ops : List LinkOp) : Bool :=
  ops.all (fun op =>
    match op with
    | LinkOp.undefinedOp _ _ ov => !ov
    | _ => true)

/-- The flag update applied by `insert(name, file)` to an existing slot
(identity when the file is a bitcode module). -/
def markUsedIf (b : Bool) : Symbol → Symbol :=
  fun s => if b then { s with isUsedInRegularObj := true } else s

/-- One resolution step never downgrades a slot: afterwards every slot
either holds its old kind, holds a defined kind, or held a bottom-level
kind (blank/undefined) before. -/
def stepOk (st st' : SymTab) : Prop :=
  ∀ j, ((st'.symAt j).kind = (st.symAt j).kind) ∨
    ((st'.symAt j).kind.isDefined = true) ∨
    ((st.symAt j).kind.level = 0)

/-- A stronger step relation: every slot keeps its kind or becomes
defined. -/
def kindUpgrade (st st' : SymTab) : Prop :=
  ∀ j, ((st'.symAt j).kind = (st.symAt j).kind) ∨
    ((st'.symAt j).kind.isDefined = true)

/-- Whether a file counts as a regular (non-bitcode) referent. -/
def regularFileRef (f : Option InputFile) : Bool :=
  f.elim true (fun x => !x.isBitcode)

/-- A sequence of `addCommon` calls for one name (the common definitions of
the same uninitialized global arriving from successive translation units). -/
def runCommons (st : SymTab) (n : String) : List (Option InputFile × Nat) → SymTab
  | [] => st
  | c :: cs => runCommons (st.addCommon c.1 n c.2).1 n cs

/-- Maximum of a list of sizes. -/
def maxList (l : List Nat) : Nat := l.foldr Nat.max 0

/-- The table extended with a fresh blank slot for `n` (the `none` branch of
`insert`). -/
def SymTab.extendWith (st : SymTab) (n : String) : SymTab :=
  { st with
      arena := st.arena ++ [blankSymbol n],
      symMap := (n, st.arena.length) :: st.symMap }

/-- A default configuration for concrete examples: no force/tolerance flags,
64-bit target, no root set. -/
def cfgDefault : Config := ⟨false, false, false, false, 8, []⟩

/-- The list of explicit (non-zero) ordinals of an export list, in order. -/
def explicitOrdinals : List Export → List Nat
  | [] => []
  | e :: es =>
      if e.ordinal = 0 then explicitOrdinals es
      else e.ordinal :: explicitOrdinals es

/-- The number of exports with default (zero) ordinal. -/
def countZeros : List Export → Nat
  | [] => 0
  | e :: es => (if e.ordinal = 0 then 1 else 0) + countZeros es

/-- A default export record (zero ordinal, empty names). -/
def dummyExport : Export :=
  ⟨"", "", "", "", "", "", 0, false, false, false, false, ExportSource.unset⟩

/-- Concrete state: one non-weak `DefinedRegular` named `d` (slot 0). -/
def exRegularTab : SymTab :=
  ((SymTab.emptyTab cfgDefault).addRegular (some ⟨1, false⟩) "d" 0 (some 1) false).1

/-- Concrete state: one COMDAT `DefinedRegular` named `k` (slot 0). -/
def exComdatTab : SymTab :=
  ((SymTab.emptyTab cfgDefault).addComdat (some ⟨1, false⟩) "k" 0).1

/-- Lazy-forcing scenario, reference first: the undefined reference to
`bar`. -/
def scnRefFirst0 : SymTab :=
  ((SymTab.emptyTab cfgDefault).addUndefined "bar" none false).1

/-- ... then archive 7 registers lazy `bar` (member symbol 3), pulling the
member in. -/
def scnRefFirst1 : SymTab := scnRefFirst0.addLazyArchive 7 3 "bar"

/-- ... and the materialized member (file 9) defines `bar`. -/
def scnRefFirst2 : SymTab :=
  (scnRefFirst1.addRegular (some ⟨9, false⟩) "bar" 0 (some 5) false).1

/-- Lazy-forcing scenario, archive first: archive 7 registers lazy `bar`. -/
def scnArcFirst0 : SymTab := (SymTab.emptyTab cfgDefault).addLazyArchive 7 3 "bar"

/-- ... then a reference arrives and forces the member. -/
def scnArcFirst1 : SymTab := (scnArcFirst0.addUndefined "bar" none false).1

/-- ... a second reference arrives before the member is parsed. -/
def scnArcFirst2 : SymTab := (scnArcFirst1.addUndefined "bar" none false).1

/-- ... and the materialized member (file 9) defines `bar`. -/
def scnArcFirst3 : SymTab :=
  (scnArcFirst2.addRegular (some ⟨9, false⟩) "bar" 0 (some 5) false).1

/-- Configuration with `/force` (`forceUnresolved`) enabled. -/
def cfgForce : Config := ⟨true, false, false, false, 8, []⟩

/-- An object file whose symbol 0 references the table's slot 0 from one
section chunk with resolvable debug info. -/
def exC5Obj : ObjFileRec :=
  ⟨"main.obj", [some 0], [DiagChunk.sectionChunk [⟨0, some ("main.c", 12), none⟩]]⟩

/-- Forced-mode state with one undefined `foo` (slot 0) referenced by
`exC5Obj`, entering `resolveRemainingUndefines`. -/
def exC5Force : SymTab :=
  { ((SymTab.emptyTab cfgForce).addUndefined "foo" none false).1 with
      objFiles := [exC5Obj] }

/-! ## Lemmas -/

theorem listModify_length {α : Type} (f : α → α) (i : Nat) (l : List α) :
    (listModify f i l).length = l.length := by
  induction l generalizing i with
  | nil => cases i <;> rfl
  | cons a l ih =>
    cases i with
    | zero => rfl
    | succ n => simpa [listModify] using ih n

theorem listModify_oob {α : Type} (f : α → α) (i : Nat) (l : List α)
    (h : l.length ≤ i) : listModify f i l = l := by
  induction l generalizing i with
  | nil => cases i <;> rfl
  | cons a l ih =>
    cases i with
    | zero => exact absurd h (by simp)
    | succ n => simp [listModify, ih n (by simpa using h)]

theorem getD_listModify_self {α : Type} (f : α → α) (i : Nat) (l : List α) (d : α)
    (h : i < l.length) : (listModify f i l).getD i d = f (l.getD i d) := by
  induction l generalizing i with
  | nil => simp at h
  | cons a l ih =>
    cases i with
    | zero => rfl
    | succ n => simpa [listModify] using ih n (by simpa using h)

theorem getD_listModify_other {α : Type} (f : α → α) (i j : Nat) (l : List α) (d : α)
    (h : i ≠ j) : (listModify f i l).getD j d = l.getD j d := by
  induction l generalizing i j with
  | nil => cases i <;> rfl
  | cons a l ih =>
    cases i with
    | zero => cases j with
      | zero => exact absurd rfl h
      | succ m => rfl
    | succ n =>
      cases j with
      | zero => rfl
      | succ m => simpa [listModify] using ih n m (by omega)

theorem listModify_id {α : Type} (i : Nat) (l : List α) :
    listModify (fun a => a) i l = l := by
  induction l generalizing i with
  | nil => cases i <;> rfl
  | cons a l ih => cases i with
    | zero => rfl
    | succ n => simp [listModify, ih n]

theorem symAt_modifySym_proj {β : Type} (p : Symbol → β) (st : SymTab) (i j : Nat)
    (f : Symbol → Symbol) (hf : ∀ s, p (f s) = p s) :
    p ((st.modifySym i f).symAt j) = p (st.symAt j) := by
  unfold SymTab.modifySym SymTab.symAt
  rcases Nat.lt_or_ge i st.arena.length with hi | hi
  · rcases eq_or_ne i j with rfl | hne
    · rw [getD_listModify_self _ _ _ _ hi]; exact hf _
    · rw [getD_listModify_other _ _ _ _ _ hne]
  · rw [listModify_oob _ _ _ hi]

theorem symAt_modifySym_self (st : SymTab) (i : Nat) (f : Symbol → Symbol)
    (h : i < st.arena.length) : (st.modifySym i f).symAt i = f (st.symAt i) := by
  unfold SymTab.modifySym SymTab.symAt
  exact getD_listModify_self _ _ _ _ h

theorem symAt_modifySym_other (st : SymTab) (i j : Nat) (f : Symbol → Symbol)
    (h : i ≠ j) : (st.modifySym i f).symAt j = st.symAt j := by
  unfold SymTab.modifySym SymTab.symAt
  rcases Nat.lt_or_ge i st.arena.length with hi | hi
  · exact getD_listModify_other _ _ _ _ _ h
  · rw [listModify_oob _ _ _ hi]

/-- A slot whose kind is not `blank` is in range (out-of-range dereferences
yield the blank symbol). -/
theorem valid_of_kind_ne_blank (st : SymTab) (i : Nat)
    (h : (st.symAt i).kind ≠ SymbolKind.blank) : i < st.arena.length := by
  by_contra hc
  have : st.symAt i = blankSymbol "" := by
    unfold SymTab.symAt
    exact List.getD_eq_default _ _ (by omega)
  exact h (by rw [this]; rfl)

theorem modifySym_diags (st : SymTab) (i : Nat) (f : Symbol → Symbol) :
    (st.modifySym i f).diags = st.diags := rfl

theorem modifySym_config (st : SymTab) (i : Nat) (f : Symbol → Symbol) :
    (st.modifySym i f).config = st.config := rfl

theorem modifySym_lookup (st : SymTab) (i : Nat) (f : Symbol → Symbol) (n : String) :
    lookupName (st.modifySym i f) n = lookupName st n := rfl

theorem modifySym_arena_length (st : SymTab) (i : Nat) (f : Symbol → Symbol) :
    (st.modifySym i f).arena.length = st.arena.length := by
  unfold SymTab.modifySym
  exact listModify_length _ _ _

theorem kind_markUsedIf (b : Bool) (s : Symbol) : (markUsedIf b s).kind = s.kind := by
  cases b <;> rfl

theorem name_markUsedIf (b : Bool) (s : Symbol) : (markUsedIf b s).name = s.name := by
  cases b <;> rfl

theorem isWeak_markUsedIf (b : Bool) (s : Symbol) :
    (markUsedIf b s).isWeak = s.isWeak := by
  cases b <;> rfl

theorem pending_markUsedIf (b : Bool) (s : Symbol) :
    (markUsedIf b s).pendingArchiveLoad = s.pendingArchiveLoad := by
  cases b <;> rfl

theorem insert_existing (st : SymTab) (n : String) (i : Nat)
    (h : lookupName st n = some i) : st.insert n = (st, i, false) := by
  simp [SymTab.insert, h]

theorem markUsedIf_true_eq :
    markUsedIf true = fun s : Symbol => { s with isUsedInRegularObj := true } := by
  funext s; rfl

theorem markUsedIf_false_eq : markUsedIf false = fun s : Symbol => s := by
  funext s; rfl

theorem insertFile_existing (st : SymTab) (n : String) (f : Option InputFile) (i : Nat)
    (h : lookupName st n = some i) :
    st.insertFile n f = (st.modifySym i (markUsedIf (regularFileRef f)), i, false) := by
  unfold SymTab.insertFile
  rw [insert_existing st n i h]
  unfold regularFileRef
  cases hb : f.elim true (fun x => !x.isBitcode)
  · rw [markUsedIf_false_eq]
    simp [hb, SymTab.modifySym, listModify_id]
  · rw [markUsedIf_true_eq]
    simp [hb]

theorem symAt_mark_kind (st : SymTab) (i j : Nat) (b : Bool) :
    ((st.modifySym i (markUsedIf b)).symAt j).kind = (st.symAt j).kind :=
  symAt_modifySym_proj Symbol.kind st i j _ (kind_markUsedIf b)

theorem symAt_mark_name (st : SymTab) (i j : Nat) (b : Bool) :
    ((st.modifySym i (markUsedIf b)).symAt j).name = (st.symAt j).name :=
  symAt_modifySym_proj Symbol.name st i j _ (name_markUsedIf b)

theorem symAt_mark_isWeak (st : SymTab) (i j : Nat) (b : Bool) :
    ((st.modifySym i (markUsedIf b)).symAt j).isWeak = (st.symAt j).isWeak :=
  symAt_modifySym_proj Symbol.isWeak st i j _ (isWeak_markUsedIf b)

theorem symAt_mark_pending (st : SymTab) (i j : Nat) (b : Bool) :
    ((st.modifySym i (markUsedIf b)).symAt j).pendingArchiveLoad =
      (st.symAt j).pendingArchiveLoad :=
  symAt_modifySym_proj Symbol.pendingArchiveLoad st i j _ (pending_markUsedIf b)

theorem symAt_setUsed_kind (st : SymTab) (i j : Nat) :
    ((st.modifySym i (fun s => { s with isUsedInRegularObj := true })).symAt j).kind =
      (st.symAt j).kind :=
  symAt_modifySym_proj Symbol.kind st i j
    (fun s => { s with isUsedInRegularObj := true }) (fun _ => rfl)

theorem symAt_setUsed_name (st : SymTab) (i j : Nat) :
    ((st.modifySym i (fun s => { s with isUsedInRegularObj := true })).symAt j).name =
      (st.symAt j).name :=
  symAt_modifySym_proj Symbol.name st i j
    (fun s => { s with isUsedInRegularObj := true }) (fun _ => rfl)

theorem symAt_setUsed_isWeak (st : SymTab) (i j : Nat) :
    ((st.modifySym i (fun s => { s with isUsedInRegularObj := true })).symAt j).isWeak =
      (st.symAt j).isWeak :=
  symAt_modifySym_proj Symbol.isWeak st i j
    (fun s => { s with isUsedInRegularObj := true }) (fun _ => rfl)

theorem symAt_setUsed_pending (st : SymTab) (i j : Nat) :
    ((st.modifySym i
      (fun s => { s with isUsedInRegularObj := true })).symAt j).pendingArchiveLoad =
      (st.symAt j).pendingArchiveLoad :=
  symAt_modifySym_proj Symbol.pendingArchiveLoad st i j
    (fun s => { s with isUsedInRegularObj := true }) (fun _ => rfl)

theorem reportDuplicate_diags (st : SymTab) (x : String) :
    (st.reportDuplicate x).diags =
      st.diags ++ [Diag.duplicateSymbol
        (if st.config.forceMultiple then DiagLevel.warn else DiagLevel.err) x] := rfl

theorem replaceSym_diags (st : SymTab) (i : Nat) (k : SymbolKind) (w : Bool) :
    (st.replaceSym i k w).diags = st.diags := rfl

/-! ## Claims -/

/-- C3: Idempotent insert — for every name, a second `insert` returns the
same slot as the first with `wasNewlyCreated = false` and leaves the table
unchanged, and the first call's `wasNewlyCreated` is true exactly when the
name was previously absent. -/
theorem c3_insert_idempotent (st : SymTab) (n : String) :
    ((st.insert n).1.insert n).2.1 = (st.insert n).2.1 ∧
    ((st.insert n).1.insert n).2.2 = false ∧
    ((st.insert n).1.insert n).1 = (st.insert n).1 ∧
    ((st.insert n).2.2 = true ↔ lookupName st n = none) := by
  rcases hl : lookupName st n with _ | i
  · unfold lookupName at hl
    have h1 : lookupName (st.insert n).1 n = some st.arena.length := by
      unfold SymTab.insert lookupName
      rw [hl]
      simp [List.lookup]
    have h2 : (st.insert n).2.1 = st.arena.length := by
      unfold SymTab.insert lookupName
      rw [hl]
    have h3 : (st.insert n).2.2 = true := by
      unfold SymTab.insert lookupName
      rw [hl]
    rw [insert_existing _ _ _ h1]
    refine ⟨h2.symm, rfl, rfl, by simp [h3, lookupName, hl]⟩
  · rw [insert_existing st n i hl]
    rw [insert_existing st n i hl]
    exact ⟨rfl, rfl, rfl, by simp [hl]⟩

/-- C1: Duplicate-definition rule for already-defined slots: a second
non-weak `DefinedRegular` (here with a different section/offset) triggers a
duplicate-symbol error; a weak flag on either side silences it; a second
`DefinedAbsolute` errors exactly when the values differ; `addCommon` onto an
existing `DefinedCommon` never reports a duplicate (max-merge applies). -/
theorem c1_duplicate_definition_rule (st : SymTab) (n : String) (i : Nat)
    (h : lookupName st n = some i) (hFM : st.config.forceMultiple = false) :
    (∀ fe co ch va fN vN chN, (st.symAt i).kind = SymbolKind.definedRegular fe co ch va →
      (st.symAt i).isWeak = false → chN ≠ ch ∨ vN ≠ va →
      (st.addRegular fN n vN chN false).1.diags =
        st.diags ++ [Diag.duplicateSymbol DiagLevel.err (st.symAt i).name]) ∧
    (∀ fe co ch va fN vN chN wN, (st.symAt i).kind = SymbolKind.definedRegular fe co ch va →
      (st.symAt i).isWeak = true →
      (st.addRegular fN n vN chN wN).1.diags = st.diags) ∧
    (∀ fe co ch va fN vN chN, (st.symAt i).kind = SymbolKind.definedRegular fe co ch va →
      (st.symAt i).isWeak = false →
      (st.addRegular fN n vN chN true).1.diags = st.diags) ∧
    (∀ va, (st.symAt i).kind = SymbolKind.definedAbsolute va →
      (st.addAbsolute n va).1.diags = st.diags) ∧
    (∀ va vN, (st.symAt i).kind = SymbolKind.definedAbsolute va → vN ≠ va →
      (st.addAbsolute n vN).1.diags =
        st.diags ++ [Diag.duplicateSymbol DiagLevel.err (st.symAt i).name]) ∧
    (∀ fe sz fN szN, (st.symAt i).kind = SymbolKind.definedCommon fe sz →
      (st.addCommon fN n szN).1.diags = st.diags) := by
  refine ⟨?_, ?_, ?_, ?_, ?_, ?_⟩
  · intro fe co ch va fN vN chN hk hw _hdiff
    simp [SymTab.addRegular, insertFile_existing st n fN i h,
      symAt_mark_kind, symAt_mark_isWeak, symAt_mark_name, hk, hw,
      SymbolKind.isRegular, SymTab.reportDuplicate, SymTab.addDiag,
      modifySym_diags, modifySym_config, hFM]
  · intro fe co ch va fN vN chN wN hk hw
    simp [SymTab.addRegular, insertFile_existing st n fN i h,
      symAt_mark_kind, symAt_mark_isWeak, hk, hw, SymbolKind.isRegular,
      SymTab.replaceSym, modifySym_diags]
  · intro fe co ch va fN vN chN hk hw
    simp [SymTab.addRegular, insertFile_existing st n fN i h,
      symAt_mark_kind, symAt_mark_isWeak, hk, hw, SymbolKind.isRegular,
      modifySym_diags]
  · intro va hk
    simp [SymTab.addAbsolute, insertFile_existing st n none i h,
      symAt_setUsed_kind, symAt_mark_kind, hk, SymbolKind.isUndef,
      SymbolKind.isLazy, modifySym_diags]
  · intro va vN hk hne
    have hne' : ¬(va = vN) := fun e => hne e.symm
    simp [SymTab.addAbsolute, insertFile_existing st n none i h,
      symAt_setUsed_kind, symAt_setUsed_name, symAt_mark_kind, symAt_mark_name,
      hk, hne', SymbolKind.isUndef, SymbolKind.isLazy, SymTab.reportDuplicate,
      SymTab.addDiag, modifySym_diags, modifySym_config, hFM]
  · intro fe sz fN szN hk
    simp only [SymTab.addCommon, insertFile_existing st n fN i h,
      symAt_mark_kind, hk, SymbolKind.isDefinedCOFF, Bool.not_true,
      Bool.false_eq_true, if_false]
    split
    · simp [SymTab.replaceSym, modifySym_diags]
    · split
      · simp [SymTab.replaceSym, modifySym_diags]
      · simp [modifySym_diags]

/-- Concrete instantiation of the duplicate-definition rule: registering a
second non-weak regular definition of `d` (different section and offset)
emits exactly one duplicate-symbol error. -/
theorem c1_duplicate_definition_rule_witness :
    (exRegularTab.addRegular (some ⟨2, false⟩) "d" 4 (some 2) false).1.diags =
      exRegularTab.diags ++
        [Diag.duplicateSymbol DiagLevel.err (exRegularTab.symAt 0).name] :=
  (c1_duplicate_definition_rule exRegularTab "d" 0 (by decide) (by decide)).1
    (some 1) false (some 1) 0 (some ⟨2, false⟩) 4 (some 2) (by decide) (by decide)
    (Or.inl (by decide))

/-- C7: COMDAT merge — when `addComdat` finds an existing `DefinedRegular`,
the existing symbol is kept and the returned flag is `false`; if the existing
symbol is COMDAT this is silent, otherwise a hard duplicate-symbol error is
reported. -/
theorem c7_comdat_merge (st : SymTab) (n : String) (i : Nat)
    (h : lookupName st n = some i) (hFM : st.config.forceMultiple = false) :
    (∀ fe ch va fN vN, (st.symAt i).kind = SymbolKind.definedRegular fe true ch va →
      (st.addComdat fN n vN).2.2 = false ∧
      (st.addComdat fN n vN).2.1 = i ∧
      ((st.addComdat fN n vN).1.symAt i).kind = (st.symAt i).kind ∧
      (st.addComdat fN n vN).1.diags = st.diags) ∧
    (∀ fe ch va fN vN, (st.symAt i).kind = SymbolKind.definedRegular fe false ch va →
      (st.addComdat fN n vN).2.2 = false ∧
      (st.addComdat fN n vN).2.1 = i ∧
      (st.addComdat fN n vN).1.diags =
        st.diags ++ [Diag.duplicateSymbol DiagLevel.err (st.symAt i).name]) := by
  constructor
  · intro fe ch va fN vN hk
    refine ⟨?_, ?_, ?_, ?_⟩ <;>
      simp [SymTab.addComdat, insertFile_existing st n fN i h, symAt_mark_kind,
        symAt_mark_name, hk, SymbolKind.isRegular, modifySym_diags]
  · intro fe ch va fN vN hk
    refine ⟨?_, ?_, ?_⟩ <;>
      simp [SymTab.addComdat, insertFile_existing st n fN i h, symAt_mark_kind,
        symAt_mark_name, hk, SymbolKind.isRegular, SymTab.reportDuplicate,
        SymTab.addDiag, modifySym_diags, modifySym_config, hFM]

/-- Concrete instantiation of the COMDAT merge: a second COMDAT definition of
`k` is silently discarded with flag `false`. -/
theorem c7_comdat_merge_witness :
    (exComdatTab.addComdat (some ⟨2, false⟩) "k" 3).2.2 = false ∧
    (exComdatTab.addComdat (some ⟨2, false⟩) "k" 3).2.1 = 0 ∧
    ((exComdatTab.addComdat (some ⟨2, false⟩) "k" 3).1.symAt 0).kind =
      (exComdatTab.symAt 0).kind ∧
    (exComdatTab.addComdat (some ⟨2, false⟩) "k" 3).1.diags = exComdatTab.diags :=
  (c7_comdat_merge exComdatTab "k" 0 (by decide) (by decide)).1
    (some 1) none 0 (some ⟨2, false⟩) 3 (by decide)

/-- C10: `/alternatename` re-registration — an identical `from=to` pair is a
silent no-op leaving the map unchanged; the same source with a different
target is a fatal conflict. -/
theorem c10_alternatename_duplicate (m : List (String × String)) (s f t : String)
    (hsplit : splitEq s = (f, t)) (hf : f ≠ "") (ht : t ≠ "") :
    (m.lookup f = some t → parseAlternateName m s = Except.ok m) ∧
    (∀ t0, m.lookup f = some t0 → t0 ≠ t →
      parseAlternateName m s = Except.error (LinkFatal.altNameConflict s)) := by
  constructor
  · intro hl
    simp [parseAlternateName, hsplit, hf, ht, hl]
  · intro t0 hl hne
    simp [parseAlternateName, hsplit, hf, ht, hl, hne]

/-- Concrete instantiation: re-registering `a=b` over the map `{a ↦ b}`
succeeds and leaves the map unchanged. -/
theorem c10_alternatename_duplicate_witness :
    parseAlternateName [("a", "b")] "a=b" = Except.ok [("a", "b")] :=
  (c10_alternatename_duplicate [("a", "b")] "a=b" "a" "b" (by decide) (by decide)
    (by decide)).1 (by decide)

theorem natMax_comm (a b : Nat) : Nat.max a b = Nat.max b a := Nat.max_comm a b

theorem natMax_assoc (a b c : Nat) :
    Nat.max (Nat.max a b) c = Nat.max a (Nat.max b c) := Nat.max_assoc a b c

theorem natMax_left_comm (a b c : Nat) :
    Nat.max a (Nat.max b c) = Nat.max b (Nat.max a c) := by
  rw [← natMax_assoc, natMax_comm a b, natMax_assoc]

theorem replaceSym_lookup (st : SymTab) (i : Nat) (k : SymbolKind) (w : Bool)
    (n : String) : lookupName (st.replaceSym i k w) n = lookupName st n := rfl

theorem replaceSym_arena_length (st : SymTab) (i : Nat) (k : SymbolKind) (w : Bool) :
    (st.replaceSym i k w).arena.length = st.arena.length := by
  unfold SymTab.replaceSym
  exact modifySym_arena_length _ _ _

theorem symAt_replaceSym_kind (st : SymTab) (i : Nat) (k : SymbolKind) (w : Bool)
    (h : i < st.arena.length) : ((st.replaceSym i k w).symAt i).kind = k := by
  unfold SymTab.replaceSym
  rw [symAt_modifySym_self st i _ h]

/-- Behavior of `addCommon` on a slot already holding a `DefinedCommon`:
the slot keeps (or becomes) the larger size — the recorded size is the max. -/
theorem addCommon_existing (st : SymTab) (n : String) (i : Nat) (f : Option InputFile)
    (szN : Nat) (fe : Option Nat) (sz : Nat)
    (h : lookupName st n = some i)
    (hk : (st.symAt i).kind = SymbolKind.definedCommon fe sz) :
    lookupName (st.addCommon f n szN).1 n = some i ∧
    (st.addCommon f n szN).1.arena.length = st.arena.length ∧
    ∃ g, (((st.addCommon f n szN).1).symAt i).kind =
      SymbolKind.definedCommon g (Nat.max sz szN) := by
  have hvalid : i < st.arena.length :=
    valid_of_kind_ne_blank st i (by rw [hk]; simp)
  have hstep : st.addCommon f n szN =
      (if sz < szN then
        (st.modifySym i (markUsedIf (regularFileRef f))).replaceSym i
          (SymbolKind.definedCommon (f.map InputFile.id) szN) false
       else st.modifySym i (markUsedIf (regularFileRef f)), i) := by
    simp only [SymTab.addCommon, insertFile_existing st n f i h, symAt_mark_kind, hk,
      SymbolKind.isDefinedCOFF, Bool.not_true, Bool.or_false, Bool.false_eq_true,
      if_false, gt_iff_lt]
    split <;> rfl
  rw [hstep]
  by_cases hcmp : sz < szN
  · rw [if_pos hcmp]
    have hmax : Nat.max sz szN = szN := Nat.max_eq_right (Nat.le_of_lt hcmp)
    refine ⟨h, ?_, f.map InputFile.id, ?_⟩
    · rw [replaceSym_arena_length, modifySym_arena_length]
    · rw [hmax]
      apply symAt_replaceSym_kind
      rw [modifySym_arena_length]
      exact hvalid
  · rw [if_neg hcmp]
    have hmax : Nat.max sz szN = sz := Nat.max_eq_left (Nat.le_of_not_lt hcmp)
    refine ⟨h, ?_, fe, ?_⟩
    · rw [modifySym_arena_length]
    · rw [hmax, symAt_mark_kind]
      exact hk

theorem getD_append_length {α : Type} (l : List α) (b d : α) :
    (l ++ [b]).getD l.length d = b := by
  induction l with
  | nil => rfl
  | cons a l ih =>
      simp only [List.cons_append, List.length_cons, List.getD_cons_succ]
      exact ih

/-- Behavior of `addCommon` on a fresh name: a new slot at the end of the
arena holding `DefinedCommon` of the given size. -/
theorem insert_fresh (st : SymTab) (n : String) (h : lookupName st n = none) :
    st.insert n = (st.extendWith n, st.arena.length, true) := by
  unfold SymTab.insert lookupName SymTab.extendWith
  unfold lookupName at h
  rw [h]

theorem insertFile_fresh (st : SymTab) (n : String) (f : Option InputFile)
    (h : lookupName st n = none) :
    st.insertFile n f =
      ((st.extendWith n).modifySym st.arena.length (markUsedIf (regularFileRef f)),
        st.arena.length, true) := by
  unfold SymTab.insertFile
  rw [insert_fresh st n h]
  unfold regularFileRef
  cases hb : f.elim true (fun x => !x.isBitcode)
  · rw [markUsedIf_false_eq]
    simp [hb, SymTab.modifySym, listModify_id]
  · rw [markUsedIf_true_eq]
    simp [hb]

theorem lookup_extendWith_self (st : SymTab) (n : String) :
    lookupName (st.extendWith n) n = some st.arena.length := by
  simp [lookupName, SymTab.extendWith, List.lookup]

theorem extendWith_arena_length (st : SymTab) (n : String) :
    (st.extendWith n).arena.length = st.arena.length + 1 := by
  simp [SymTab.extendWith]

theorem symAt_extendWith_last (st : SymTab) (n : String) :
    (st.extendWith n).symAt st.arena.length = blankSymbol n := by
  unfold SymTab.extendWith SymTab.symAt
  exact getD_append_length _ _ _

theorem addCommon_fresh (st : SymTab) (n : String) (f : Option InputFile) (sz : Nat)
    (h : lookupName st n = none) :
    lookupName (st.addCommon f n sz).1 n = some st.arena.length ∧
    (st.addCommon f n sz).1.arena.length = st.arena.length + 1 ∧
    ∃ g, (((st.addCommon f n sz).1).symAt st.arena.length).kind =
      SymbolKind.definedCommon g sz := by
  have hstep : st.addCommon f n sz =
      (((st.extendWith n).modifySym st.arena.length
          (markUsedIf (regularFileRef f))).replaceSym st.arena.length
        (SymbolKind.definedCommon (f.map InputFile.id) sz) false, st.arena.length) := by
    simp only [SymTab.addCommon, insertFile_fresh st n f h, Bool.true_or, if_true]
  rw [hstep]
  refine ⟨?_, ?_, f.map InputFile.id, ?_⟩
  · rw [replaceSym_lookup, modifySym_lookup]
    exact lookup_extendWith_self st n
  · rw [replaceSym_arena_length, modifySym_arena_length, extendWith_arena_length]
  · apply symAt_replaceSym_kind
    rw [modifySym_arena_length, extendWith_arena_length]
    omega

theorem foldr_max_init (l : List Nat) (a b : Nat) :
    List.foldr Nat.max (Nat.max a b) l = Nat.max a (List.foldr Nat.max b l) := by
  induction l with
  | nil => rfl
  | cons x xs ih =>
      simp only [List.foldr, ih]
      exact natMax_left_comm x a _

theorem maxList_perm (l l' : List Nat) (p : List.Perm l l') :
    maxList l = maxList l' := by
  induction p with
  | nil => rfl
  | cons x _ ih => simp [maxList, List.foldr, ih, maxList] at ih ⊢; rw [ih]
  | swap x y l =>
      simp only [maxList, List.foldr]
      exact natMax_left_comm y x _
  | trans _ _ ih1 ih2 => exact ih1.trans ih2

/-- Running a common sequence over an existing `DefinedCommon` slot folds
`max` over the sizes. -/
theorem runCommons_existing (n : String) (calls : List (Option InputFile × Nat)) :
    ∀ (st : SymTab) (i : Nat) (fe : Option Nat) (sz : Nat),
      lookupName st n = some i →
      (st.symAt i).kind = SymbolKind.definedCommon fe sz →
      ∃ g, ((runCommons st n calls).symAt i).kind =
        SymbolKind.definedCommon g (List.foldr Nat.max sz (calls.map Prod.snd)) := by
  induction calls with
  | nil =>
      intro st i fe sz _ hk
      exact ⟨fe, by simpa [runCommons] using hk⟩
  | cons c cs ih =>
      intro st i fe sz h hk
      obtain ⟨hl, _, g, hk'⟩ := addCommon_existing st n i c.1 c.2 fe sz h hk
      obtain ⟨g', hg'⟩ := ih (st.addCommon c.1 n c.2).1 i g (Nat.max sz c.2) hl hk'
      refine ⟨g', ?_⟩
      rw [runCommons, hg']
      have : List.foldr Nat.max (Nat.max sz c.2) (cs.map Prod.snd) =
          Nat.max c.2 (List.foldr Nat.max sz (cs.map Prod.snd)) := by
        rw [natMax_comm sz c.2]
        exact foldr_max_init _ _ _
      rw [this]
      simp [List.foldr]

/-- C4: Common merge max law — for a fresh name, any nonempty sequence of
`addCommon(n, size_i)` calls leaves the slot holding a `DefinedCommon` whose
recorded size is `max(size_i)` over the whole sequence; any reordering of the
sizes yields the same recorded size. -/
theorem c4_common_merge_max (st : SymTab) (n : String)
    (h : lookupName st n = none) (calls : List (Option InputFile × Nat))
    (hne : calls ≠ []) :
    (∃ g, ((runCommons st n calls).symAt st.arena.length).kind =
      SymbolKind.definedCommon g (maxList (calls.map Prod.snd))) ∧
    (∀ calls' : List (Option InputFile × Nat), calls' ≠ [] →
      List.Perm (calls.map Prod.snd) (calls'.map Prod.snd) →
      ∃ g g', ((runCommons st n calls).symAt st.arena.length).kind =
          SymbolKind.definedCommon g (maxList (calls.map Prod.snd)) ∧
        ((runCommons st n calls').symAt st.arena.length).kind =
          SymbolKind.definedCommon g' (maxList (calls.map Prod.snd))) := by
  have main : ∀ (cs : List (Option InputFile × Nat)), cs ≠ [] →
      ∃ g, ((runCommons st n cs).symAt st.arena.length).kind =
        SymbolKind.definedCommon g (maxList (cs.map Prod.snd)) := by
    intro cs hcs
    match cs with
    | [] => exact absurd rfl hcs
    | c :: rest =>
        obtain ⟨hl, _, g0, hk0⟩ := addCommon_fresh st n c.1 c.2 h
        obtain ⟨g, hg⟩ := runCommons_existing n rest
          (st.addCommon c.1 n c.2).1 st.arena.length g0 c.2 hl hk0
        refine ⟨g, ?_⟩
        rw [runCommons, hg]
        have : List.foldr Nat.max c.2 (rest.map Prod.snd) =
            maxList ((c :: rest).map Prod.snd) := by
          have h1 : Nat.max c.2 0 = c.2 := Nat.max_eq_left (Nat.zero_le _)
          calc List.foldr Nat.max c.2 (rest.map Prod.snd)
              = List.foldr Nat.max (Nat.max c.2 0) (rest.map Prod.snd) := by rw [h1]
            _ = Nat.max c.2 (List.foldr Nat.max 0 (rest.map Prod.snd)) :=
                foldr_max_init _ _ _
            _ = maxList ((c :: rest).map Prod.snd) := by simp [maxList, List.foldr]
        rw [this]
  refine ⟨main calls hne, ?_⟩
  intro calls' hne' hperm
  obtain ⟨g, hg⟩ := main calls hne
  obtain ⟨g', hg'⟩ := main calls' hne'
  exact ⟨g, g', hg, by rw [hg', maxList_perm _ _ hperm]⟩

/-- Concrete instantiation of the common merge max law: sizes 4, 10, 7 leave
a common of size `max = 10`. -/
theorem c4_common_merge_max_witness :
    ∃ g, ((runCommons (SymTab.emptyTab cfgDefault) "c"
        [(none, 4), (none, 10), (none, 7)]).symAt 0).kind =
      SymbolKind.definedCommon g (maxList [4, 10, 7]) :=
  (c4_common_merge_max (SymTab.emptyTab cfgDefault) "c" (by decide)
    [(none, 4), (none, 10), (none, 7)] (by decide)).1

theorem checkOrdinalsGo_spec (es : List Export) : ∀ seen : List Nat,
    (checkOrdinalsGo seen es = Except.ok () ↔
      (explicitOrdinals es).Nodup ∧ ∀ o ∈ explicitOrdinals es, o ∉ seen) := by
  induction es with
  | nil => intro seen; simp [checkOrdinalsGo, explicitOrdinals]
  | cons e es ih =>
      intro seen
      by_cases h0 : e.ordinal = 0
      · simp [checkOrdinalsGo, explicitOrdinals, h0, ih seen]
      · by_cases hmem : e.ordinal ∈ seen
        · simp only [checkOrdinalsGo, if_neg h0, if_pos hmem, explicitOrdinals]
          constructor
          · intro hcontra; exact absurd hcontra (by simp)
          · rintro ⟨-, hall⟩
            exact absurd hmem (hall e.ordinal (by simp))
        · simp only [checkOrdinalsGo, if_neg h0, if_neg hmem, explicitOrdinals,
            ih (e.ordinal :: seen), List.nodup_cons, List.mem_cons]
          constructor
          · rintro ⟨hnd, hall⟩
            refine ⟨⟨fun hin => hall _ hin (Or.inl rfl), hnd⟩, ?_⟩
            intro o ho
            rcases ho with rfl | hin
            · exact hmem
            · exact fun hse => hall o hin (Or.inr hse)
          · rintro ⟨⟨hnin, hnd⟩, hall⟩
            refine ⟨hnd, fun o hin hor => ?_⟩
            rcases hor with rfl | hse
            · exact hnin hin
            · exact hall o (Or.inr hin) hse

theorem assignOrdinalsGo_spec (es : List Export) : ∀ m : Nat,
    (assignOrdinalsGo m es).1 = m + countZeros es ∧
    (assignOrdinalsGo m es).2.length = es.length ∧
    ∀ k, k < es.length →
      (assignOrdinalsGo m es).2.getD k dummyExport =
        (if (es.getD k dummyExport).ordinal = 0
         then { es.getD k dummyExport with
                  ordinal := m + countZeros (es.take k) + 1 }
         else es.getD k dummyExport) := by
  induction es with
  | nil =>
      intro m
      refine ⟨by simp [assignOrdinalsGo, countZeros], by simp [assignOrdinalsGo], ?_⟩
      intro k hk; simp at hk
  | cons e es ih =>
      intro m
      by_cases h0 : e.ordinal = 0
      · obtain ⟨ih1, ih2, ih3⟩ := ih (m + 1)
        refine ⟨?_, ?_, ?_⟩
        · simp only [assignOrdinalsGo, if_pos h0, countZeros, ih1]
          omega
        · simp [assignOrdinalsGo, if_pos h0, ih2]
        · intro k hk
          cases k with
          | zero =>
              simp [assignOrdinalsGo, if_pos h0, List.getD, h0, List.take,
                countZeros]
          | succ k =>
              have hk' : k < es.length := by simpa using hk
              simp only [assignOrdinalsGo, if_pos h0, List.getD_cons_succ,
                ih3 k hk', List.take_succ_cons]
              have hcz : countZeros (e :: es.take k) = 1 + countZeros (es.take k) := by
                simp [countZeros, h0]
              rw [hcz]
              have harith : m + 1 + countZeros (es.take k) + 1 =
                  m + (1 + countZeros (es.take k)) + 1 := by omega
              rw [harith]
      · obtain ⟨ih1, ih2, ih3⟩ := ih m
        refine ⟨?_, ?_, ?_⟩
        · simp only [assignOrdinalsGo, if_neg h0, countZeros, ih1]
          omega
        · simp [assignOrdinalsGo, if_neg h0, ih2]
        · intro k hk
          cases k with
          | zero => simp [assignOrdinalsGo, if_neg h0, List.getD, h0]
          | succ k =>
              have hk' : k < es.length := by simpa using hk
              simp only [assignOrdinalsGo, if_neg h0, List.getD_cons_succ,
                ih3 k hk', List.take_succ_cons]
              have hcz : countZeros (e :: es.take k) = countZeros (es.take k) := by
                simp [countZeros, h0]
              rw [hcz]

theorem countZeros_append (l1 l2 : List Export) :
    countZeros (l1 ++ l2) = countZeros l1 + countZeros l2 := by
  induction l1 with
  | nil => simp [countZeros]
  | cons e l ih =>
      rw [List.cons_append]
      simp only [countZeros]
      rw [ih]
      omega

theorem countZeros_take_lt (es : List Export) (k j : Nat) (hkj : k < j)
    (hk : k < es.length) (h0 : (es.getD k dummyExport).ordinal = 0) :
    countZeros (es.take k) < countZeros (es.take j) := by
  have hsome : es[k]? = some (es.getD k dummyExport) := by
    cases hx : es[k]? with
    | none =>
        have := List.getElem?_eq_none_iff.mp hx
        omega
    | some v =>
        rw [List.getD_eq_getElem?_getD, hx]
        rfl
  have hstep : countZeros (es.take (k + 1)) = countZeros (es.take k) + 1 := by
    rw [List.take_succ, hsome]
    have htl : (some (es.getD k dummyExport)).toList = [es.getD k dummyExport] := rfl
    rw [htl, countZeros_append]
    simp only [countZeros, if_pos h0]
  have hmono : ∀ a b : Nat, a ≤ b →
      countZeros (es.take a) ≤ countZeros (es.take b) := by
    intro a b hab
    obtain ⟨c, rfl⟩ := Nat.le.dest hab
    induction c with
    | zero => exact Nat.le_refl _
    | succ c ihc =>
        have hstep2 : countZeros (es.take (a + c)) ≤
            countZeros (es.take (a + c + 1)) := by
          rw [List.take_succ, countZeros_append]
          omega
        have harith : a + (c + 1) = a + c + 1 := by omega
        rw [harith]
        exact Nat.le_trans (ihc (by omega)) hstep2
  have := hmono (k + 1) j (by omega)
  omega

theorem maxOrdinal_zero_of_all_zero (es : List Export)
    (h : ∀ e ∈ es, e.ordinal = 0) : maxOrdinal es = 0 := by
  have : ∀ m : Nat, es.foldl (fun m e => Nat.max m e.ordinal) m = m := by
    induction es with
    | nil => intro m; rfl
    | cons e es ih =>
        intro m
        have he : e.ordinal = 0 := h e (by simp)
        have hmx : Nat.max m e.ordinal = m := by
          rw [he]; exact Nat.max_eq_left (Nat.zero_le m)
        simp only [List.foldl, hmx]
        exact ih (fun x hx => h x (by simp [hx])) m
  exact this 0

theorem countZeros_replicate (n : Nat) (e : Export) (h : e.ordinal = 0) :
    countZeros (List.replicate n e) = n := by
  induction n with
  | zero => rfl
  | succ n ih =>
      rw [List.replicate_succ]
      simp only [countZeros, if_pos h, ih]
      omega

/-- C8: Export ordinal assignment — (i) the `fixupExports` pre-check accepts
exactly the lists whose explicit (non-zero) ordinals are pairwise distinct
and aborts fatally on a collision; (ii) on success, `assignExportOrdinals`
keeps every explicit ordinal, gives the `k`-th zero-ordinal export the value
`maxOrdinal + (zeros before it) + 1` — strictly above every reserved
ordinal and strictly ascending along the list — and succeeds exactly when
the final counter stays within the 16-bit bound 65535; (iii) 65537 exports
with no explicit ordinals abort fatally citing the maximum 65535. -/
theorem c8_export_ordinal_assignment :
    (∀ exports : List Export,
      (fixupExportsOrdinalCheck exports = Except.ok () ↔
        (explicitOrdinals exports).Nodup)) ∧
    (∀ exports res : List Export, assignExportOrdinals exports = Except.ok res →
      res.length = exports.length ∧
      (∀ k, k < exports.length → (exports.getD k dummyExport).ordinal ≠ 0 →
        res.getD k dummyExport = exports.getD k dummyExport) ∧
      (∀ k, k < exports.length → (exports.getD k dummyExport).ordinal = 0 →
        (res.getD k dummyExport).ordinal =
          maxOrdinal exports + countZeros (exports.take k) + 1 ∧
        maxOrdinal exports < (res.getD k dummyExport).ordinal) ∧
      (∀ k j, k < j → j < exports.length →
        (exports.getD k dummyExport).ordinal = 0 →
        (exports.getD j dummyExport).ordinal = 0 →
        (res.getD k dummyExport).ordinal < (res.getD j dummyExport).ordinal) ∧
      maxOrdinal exports + countZeros exports ≤ 65535) ∧
    (∀ exports : List Export,
      (∃ res, assignExportOrdinals exports = Except.ok res) ↔
        maxOrdinal exports + countZeros exports ≤ 65535) ∧
    (∀ e : Export, e.ordinal = 0 →
      assignExportOrdinals (List.replicate 65537 e) =
        Except.error (LinkFatal.tooManyExports 65537 65535)) := by
  have hok : ∀ exports : List Export,
      (assignExportOrdinals exports = Except.ok (assignOrdinalsGo (maxOrdinal exports) exports).2 ∧
        maxOrdinal exports + countZeros exports ≤ 65535) ∨
      (assignExportOrdinals exports =
          Except.error (LinkFatal.tooManyExports
            (maxOrdinal exports + countZeros exports) 65535) ∧
        maxOrdinal exports + countZeros exports > 65535) := by
    intro exports
    obtain ⟨h1, -, -⟩ := assignOrdinalsGo_spec exports (maxOrdinal exports)
    by_cases hb : maxOrdinal exports + countZeros exports > 65535
    · right
      refine ⟨?_, hb⟩
      simp only [assignExportOrdinals, h1]
      rw [if_pos hb]
    · left
      refine ⟨?_, by omega⟩
      simp only [assignExportOrdinals, h1]
      rw [if_neg hb]
  refine ⟨?_, ?_, ?_, ?_⟩
  · intro exports
    rw [fixupExportsOrdinalCheck, checkOrdinalsGo_spec exports []]
    simp
  · intro exports res hres
    rcases hok exports with ⟨heq, hb⟩ | ⟨heq, hb⟩
    · rw [hres] at heq
      have hres2 : res = (assignOrdinalsGo (maxOrdinal exports) exports).2 :=
        Except.ok.inj heq
      obtain ⟨-, h2, h3⟩ := assignOrdinalsGo_spec exports (maxOrdinal exports)
      subst hres2
      refine ⟨h2, ?_, ?_, ?_, hb⟩
      · intro k hk hnz
        rw [h3 k hk, if_neg hnz]
      · intro k hk hz
        rw [h3 k hk, if_pos hz]
        refine ⟨rfl, ?_⟩
        show maxOrdinal exports <
          maxOrdinal exports + countZeros (exports.take k) + 1
        omega
      · intro k j hkj hj hzk hzj
        rw [h3 k (by omega), if_pos hzk, h3 j hj, if_pos hzj]
        have hlt := countZeros_take_lt exports k j hkj (by omega) hzk
        show maxOrdinal exports + countZeros (exports.take k) + 1 <
          maxOrdinal exports + countZeros (exports.take j) + 1
        omega
    · rw [hres] at heq
      exact absurd heq (by simp)
  · intro exports
    rcases hok exports with ⟨heq, hb⟩ | ⟨heq, hb⟩
    · exact ⟨fun _ => hb, fun _ => ⟨_, heq⟩⟩
    · constructor
      · rintro ⟨res, hres⟩
        rw [hres] at heq
        exact absurd heq (by simp)
      · intro hle; omega
  · intro e he
    rcases hok (List.replicate 65537 e) with ⟨-, hb⟩ | ⟨heq, -⟩
    · have hmx : maxOrdinal (List.replicate 65537 e) = 0 :=
        maxOrdinal_zero_of_all_zero _ (fun x hx => by
          rw [List.eq_of_mem_replicate hx]; exact he)
      have hcz : countZeros (List.replicate 65537 e) = 65537 :=
        countZeros_replicate _ _ he
      omega
    · have hmx : maxOrdinal (List.replicate 65537 e) = 0 :=
        maxOrdinal_zero_of_all_zero _ (fun x hx => by
          rw [List.eq_of_mem_replicate hx]; exact he)
      have hcz : countZeros (List.replicate 65537 e) = 65537 :=
        countZeros_replicate _ _ he
      rw [hmx, hcz] at heq
      rw [Nat.zero_add] at heq
      exact heq

/-- Concrete instantiation of the ordinal-overflow scenario: 65537 exports
with no explicit ordinals fail fatally citing the maximum 65535. -/
theorem c8_export_ordinal_assignment_witness :
    assignExportOrdinals (List.replicate 65537 dummyExport) =
      Except.error (LinkFatal.tooManyExports 65537 65535) :=
  c8_export_ordinal_assignment.2.2.2 dummyExport rfl

theorem modifySym_loadRequests (st : SymTab) (i : Nat) (f : Symbol → Symbol) :
    (st.modifySym i f).loadRequests = st.loadRequests := rfl

theorem modifySym_loaded (st : SymTab) (i : Nat) (f : Symbol → Symbol) :
    (st.modifySym i f).loaded = st.loaded := rfl

/-- C6 counterexample: in the scenario "one reference to `bar`, one archive
lazily defining `bar`" with the reference arriving first, the slot never
holds `LazyArchive` — it stays `Undefined` (with `pendingArchiveLoad` set)
while the member load is in flight and then becomes `DefinedRegular`
directly, refuting the claimed chain
`Undefined -> LazyArchive -> DefinedRegular`. -/
theorem c6_lazy_forcing_counterexample :
    (scnRefFirst0.symAt 0).kind = SymbolKind.undef none false ∧
    (scnRefFirst1.symAt 0).kind = SymbolKind.undef none false ∧
    (scnRefFirst1.symAt 0).kind.isLazy = false ∧
    (scnRefFirst1.symAt 0).pendingArchiveLoad = true ∧
    (scnRefFirst2.symAt 0).kind =
      SymbolKind.definedRegular (some 9) false (some 5) 0 ∧
    scnRefFirst2.loaded = [(7, some 3)] := by
  decide

/-- C6 (amended): (i)–(iii) a further `addLazyArchive` / `addLazyObject` /
`addLazyDLLSymbol` for a name whose `pendingArchiveLoad` flag is set issues
no load request and changes no slot's kind; (iv) with the reference first,
`bar` transitions `Undefined -> DefinedRegular` directly (pendingArchiveLoad
marks the in-flight member) and the member is loaded exactly once; (v) with
the archive first, `bar` transitions `LazyArchive -> DefinedRegular`; a
second reference issues a second load request but the loader materializes
the member only once. -/
theorem c6_lazy_forcing_idempotent :
    (∀ (st : SymTab) (f m : Nat) (n : String) (i : Nat),
      lookupName st n = some i → (st.symAt i).pendingArchiveLoad = true →
      st.addLazyArchive f m n = st) ∧
    (∀ (st : SymTab) (f : InputFile) (n : String) (i : Nat),
      lookupName st n = some i → (st.symAt i).pendingArchiveLoad = true →
      (st.addLazyObject f n).loadRequests = st.loadRequests ∧
      (st.addLazyObject f n).loaded = st.loaded ∧
      ∀ j, ((st.addLazyObject f n).symAt j).kind = (st.symAt j).kind) ∧
    (∀ (st : SymTab) (f d : Nat) (n : String) (i : Nat),
      lookupName st n = some i → (st.symAt i).pendingArchiveLoad = true →
      st.addLazyDLLSymbol f d n = st) ∧
    (scnRefFirst2.loaded = [(7, some 3)] ∧
      (scnRefFirst1.symAt 0).kind = SymbolKind.undef none false ∧
      (scnRefFirst2.symAt 0).kind =
        SymbolKind.definedRegular (some 9) false (some 5) 0) ∧
    ((scnArcFirst0.symAt 0).kind = SymbolKind.lazyArchive 7 3 ∧
      (scnArcFirst1.symAt 0).kind = SymbolKind.lazyArchive 7 3 ∧
      scnArcFirst1.loaded = [(7, some 3)] ∧
      scnArcFirst2.loadRequests = [(7, some 3), (7, some 3)] ∧
      scnArcFirst2.loaded = [(7, some 3)] ∧
      (scnArcFirst3.symAt 0).kind =
        SymbolKind.definedRegular (some 9) false (some 5) 0) := by
  refine ⟨?_, ?_, ?_, by decide, by decide⟩
  · intro st f m n i h hp
    unfold SymTab.addLazyArchive
    rw [insert_existing st n i h]
    cases hk : (st.symAt i).kind <;> simp [hk, hp]
  · intro st f n i h hp
    unfold SymTab.addLazyObject
    rw [insertFile_existing st n (some f) i h]
    have hk' : ∀ j,
        ((st.modifySym i (markUsedIf (regularFileRef (some f)))).symAt j).kind =
          (st.symAt j).kind := fun j => symAt_mark_kind st i j _
    have hp' : ((st.modifySym i
        (markUsedIf (regularFileRef (some f)))).symAt i).pendingArchiveLoad = true := by
      rw [symAt_mark_pending]; exact hp
    cases hk : (st.symAt i).kind <;>
      simp [hk, hk' i, hp', modifySym_loadRequests, modifySym_loaded, hk']
  · intro st f d n i h hp
    unfold SymTab.addLazyDLLSymbol
    rw [insert_existing st n i h]
    cases hk : (st.symAt i).kind <;> simp [hk, hp]

/-- Concrete instantiation of pending-load idempotence: with `bar` still
undefined but pending (the ref-then-archive state), a second
`addLazyArchive` is a complete no-op. -/
theorem c6_lazy_forcing_idempotent_witness :
    scnRefFirst1.addLazyArchive 7 3 "bar" = scnRefFirst1 :=
  c6_lazy_forcing_idempotent.1 scnRefFirst1 7 3 "bar" 0 (by decide) (by decide)

theorem getD_append_left {α : Type} (l m : List α) (j : Nat) (d : α)
    (h : j < l.length) : (l ++ m).getD j d = l.getD j d := by
  induction l generalizing j with
  | nil => simp at h
  | cons a l ih =>
      cases j with
      | zero => rfl
      | succ k =>
          simp only [List.cons_append, List.getD_cons_succ]
          exact ih k (by simpa using h)

theorem symAt_oob (st : SymTab) (i : Nat) (h : st.arena.length ≤ i) :
    st.symAt i = blankSymbol "" := by
  unfold SymTab.symAt
  exact List.getD_eq_default _ _ h

theorem kind_symAt_extendWith (st : SymTab) (n : String) (j : Nat) :
    ((st.extendWith n).symAt j).kind = (st.symAt j).kind := by
  rcases Nat.lt_trichotomy j st.arena.length with hlt | heq | hgt
  · unfold SymTab.extendWith SymTab.symAt
    exact congrArg Symbol.kind (getD_append_left _ _ _ _ hlt)
  · rw [heq, symAt_extendWith_last, symAt_oob st _ (Nat.le_refl _)]
    rfl
  · have h1 : (st.extendWith n).arena.length ≤ j := by
      rw [extendWith_arena_length]; omega
    rw [symAt_oob _ _ h1, symAt_oob st j (by omega)]

theorem symAt_requestLoad (st : SymTab) (f : Nat) (m : Option Nat) (j : Nat) :
    (st.requestLoad f m).symAt j = st.symAt j := by
  unfold SymTab.requestLoad
  dsimp only
  split <;> rfl

theorem symAt_setFileLazy (st : SymTab) (f : Nat) (b : Bool) (j : Nat) :
    (st.setFileLazy f b).symAt j = st.symAt j := rfl

theorem symAt_addDiag (st : SymTab) (d : Diag) (j : Nat) :
    (st.addDiag d).symAt j = st.symAt j := rfl

theorem symAt_setChunkLive (st : SymTab) (c : Nat) (b : Bool) (j : Nat) :
    (st.setChunkLive c b).symAt j = st.symAt j := rfl

theorem symAt_setPending_kind (st : SymTab) (i j : Nat) :
    ((st.modifySym i
      (fun s => { s with pendingArchiveLoad := true })).symAt j).kind =
      (st.symAt j).kind :=
  symAt_modifySym_proj Symbol.kind st i j
    (fun s => { s with pendingArchiveLoad := true }) (fun _ => rfl)

theorem kind_symAt_forceLazy (st : SymTab) (i j : Nat) :
    ((forceLazy st i).symAt j).kind = (st.symAt j).kind := by
  have hbase : ∀ jj, (((st.modifySym i fun s =>
      { s with pendingArchiveLoad := true })).symAt jj).kind = (st.symAt jj).kind :=
    fun jj => symAt_setPending_kind st i jj
  unfold forceLazy
  cases hk : ((st.modifySym i fun s =>
      { s with pendingArchiveLoad := true }).symAt i).kind
  case lazyArchive fa ma =>
    simp only [hk]
    rw [symAt_requestLoad]
    exact hbase j
  case lazyObject fo =>
    simp only [hk]
    by_cases hlz : (st.modifySym i fun s =>
        { s with pendingArchiveLoad := true }).isFileLazy fo = true
    · simp only [hlz, Bool.not_true, Bool.false_eq_true, if_false]
      rw [symAt_requestLoad, symAt_setFileLazy]
      exact hbase j
    · simp only [Bool.not_eq_true] at hlz
      simp only [hlz, Bool.not_false, if_true]
      exact hbase j
  case lazyDLL fd md =>
    simp only [hk]
    rw [symAt_requestLoad]
    exact hbase j
  all_goals simp only [hk]
  all_goals exact hbase j

theorem kindUpgrade_refl (st : SymTab) : kindUpgrade st st := fun _ => Or.inl rfl

theorem kindUpgrade_trans {a b c : SymTab} (h1 : kindUpgrade a b)
    (h2 : kindUpgrade b c) : kindUpgrade a c := by
  intro j
  rcases h2 j with he | hd
  · rcases h1 j with he1 | hd1
    · exact Or.inl (he.trans he1)
    · exact Or.inr (by rw [he]; exact hd1)
  · exact Or.inr hd

theorem kindUpgrade_of_eq {st st' : SymTab}
    (h : ∀ j, (st'.symAt j).kind = (st.symAt j).kind) : kindUpgrade st st' :=
  fun j => Or.inl (h j)

theorem kindUpgrade_stepOk {st st' : SymTab} (h : kindUpgrade st st') :
    stepOk st st' :=
  fun j => (h j).elim Or.inl (fun hd => Or.inr (Or.inl hd))

theorem level_le_two (k : SymbolKind) : k.level ≤ 2 := by
  cases k <;> simp [SymbolKind.level]

theorem level_of_isDefined (k : SymbolKind) (h : k.isDefined = true) :
    k.level = 2 := by
  cases k <;> simp_all [SymbolKind.isDefined, SymbolKind.level]

theorem stepOk_level {st st' : SymTab} (h : stepOk st st') (i : Nat) :
    (st.symAt i).kind.level ≤ ((st'.symAt i).kind.level) := by
  rcases h i with he | hd | h0
  · rw [he]
  · rw [level_of_isDefined _ hd]; exact level_le_two _
  · rw [h0]; exact Nat.zero_le _

theorem kindUpgrade_replaceSym (st : SymTab) (i : Nat) (k : SymbolKind) (w : Bool)
    (hd : k.isDefined = true) : kindUpgrade st (st.replaceSym i k w) := by
  intro j
  rcases eq_or_ne j i with rfl | hne
  · rcases Nat.lt_or_ge j st.arena.length with hr | hr
    · exact Or.inr (by rw [symAt_replaceSym_kind st j k w hr]; exact hd)
    · left
      unfold SymTab.replaceSym SymTab.modifySym SymTab.symAt
      rw [listModify_oob _ _ _ hr]
  · exact Or.inl
      (congrArg Symbol.kind (symAt_modifySym_other st i j _ (Ne.symm hne)))

theorem symAt_replaceKeepingName_kind_self (st : SymTab) (i : Nat) (src : Symbol)
    (h : i < st.arena.length) :
    ((st.replaceKeepingName i src).symAt i).kind = src.kind := by
  unfold SymTab.replaceKeepingName
  rw [symAt_modifySym_self st i _ h]

theorem kindUpgrade_replaceKeepingName (st : SymTab) (i : Nat) (src : Symbol)
    (hd : src.kind.isDefined = true) :
    kindUpgrade st (st.replaceKeepingName i src) := by
  intro j
  rcases eq_or_ne j i with rfl | hne
  · rcases Nat.lt_or_ge j st.arena.length with hr | hr
    · exact Or.inr (by rw [symAt_replaceKeepingName_kind_self st j src hr]; exact hd)
    · left
      unfold SymTab.replaceKeepingName SymTab.modifySym SymTab.symAt
      rw [listModify_oob _ _ _ hr]
  · exact Or.inl
      (congrArg Symbol.kind (symAt_modifySym_other st i j _ (Ne.symm hne)))

theorem kindUpgrade_modify_kindpres (st : SymTab) (i : Nat) (f : Symbol → Symbol)
    (hf : ∀ s, (f s).kind = s.kind) : kindUpgrade st (st.modifySym i f) :=
  fun j => Or.inl (symAt_modifySym_proj Symbol.kind st i j f hf)

theorem stepOk_replace_bottom (st stx : SymTab) (idx : Nat) (k : SymbolKind)
    (w : Bool) (hx : ∀ j, (stx.symAt j).kind = (st.symAt j).kind)
    (hidx : (st.symAt idx).kind.level = 0) :
    stepOk st (stx.replaceSym idx k w) := by
  intro j
  rcases eq_or_ne j idx with rfl | hne
  · exact Or.inr (Or.inr hidx)
  · left
    rw [show (stx.replaceSym idx k w).symAt j = stx.symAt j from
      symAt_modifySym_other stx idx j _ (Ne.symm hne)]
    exact hx j

theorem stepOk_replace_defined (st stx : SymTab) (idx : Nat) (k : SymbolKind)
    (w : Bool) (hx : ∀ j, (stx.symAt j).kind = (st.symAt j).kind)
    (hd : k.isDefined = true) :
    stepOk st (stx.replaceSym idx k w) := by
  intro j
  rcases eq_or_ne j idx with rfl | hne
  · rcases Nat.lt_or_ge j stx.arena.length with hr | hr
    · exact Or.inr (Or.inl (by rw [symAt_replaceSym_kind stx j k w hr]; exact hd))
    · left
      rw [show (stx.replaceSym j k w).symAt j = stx.symAt j from by
        unfold SymTab.replaceSym SymTab.modifySym SymTab.symAt
        rw [listModify_oob _ _ _ hr]]
      exact hx j
  · left
    rw [show (stx.replaceSym idx k w).symAt j = stx.symAt j from
      symAt_modifySym_other stx idx j _ (Ne.symm hne)]
    exact hx j

theorem blank_level_at_end (st : SymTab) : (st.symAt st.arena.length).kind.level = 0 := by
  rw [symAt_oob st _ (Nat.le_refl _)]
  rfl

theorem stepOk_addLazyArchive (st : SymTab) (f m : Nat) (n : String) :
    stepOk st (st.addLazyArchive f m n) := by
  cases hl : lookupName st n with
  | none =>
      have hstep : st.addLazyArchive f m n =
          (st.extendWith n).replaceSym st.arena.length
            (SymbolKind.lazyArchive f m) false := by
        unfold SymTab.addLazyArchive
        rw [insert_fresh st n hl]
        rfl
      rw [hstep]
      exact stepOk_replace_bottom st _ _ _ _
        (fun j => kind_symAt_extendWith st n j) (blank_level_at_end st)
  | some i =>
      have hstep : st.addLazyArchive f m n =
          (match (st.symAt i).kind with
           | SymbolKind.undef wa _ =>
               if (wa.isSome || (st.symAt i).pendingArchiveLoad) = true then st
               else (st.modifySym i fun x =>
                   { x with pendingArchiveLoad := true }).requestLoad f (some m)
           | _ => st) := by
        unfold SymTab.addLazyArchive
        rw [insert_existing st n i hl]
        rfl
      have hkeq : ∀ j, ((st.addLazyArchive f m n).symAt j).kind =
          (st.symAt j).kind := by
        intro j
        rw [hstep]
        cases hk : (st.symAt i).kind <;> simp only [hk]
        case undef wa ad =>
          split
          · rfl
          · rw [symAt_requestLoad, symAt_setPending_kind]
      exact fun j => Or.inl (hkeq j)

theorem stepOk_addLazyObject (st : SymTab) (f : InputFile) (n : String) :
    stepOk st (st.addLazyObject f n) := by
  cases hl : lookupName st n with
  | none =>
      have hstep : st.addLazyObject f n =
          ((st.extendWith n).modifySym st.arena.length
            (markUsedIf (regularFileRef (some f)))).replaceSym st.arena.length
            (SymbolKind.lazyObject f.id) false := by
        unfold SymTab.addLazyObject
        rw [insertFile_fresh st n (some f) hl]
        rfl
      rw [hstep]
      exact stepOk_replace_bottom st _ _ _ _
        (fun j => by rw [symAt_mark_kind, kind_symAt_extendWith])
        (blank_level_at_end st)
  | some i =>
      have hstep : st.addLazyObject f n =
          (let stx := st.modifySym i (markUsedIf (regularFileRef (some f)))
           match (stx.symAt i).kind with
           | SymbolKind.undef wa _ =>
               if (wa.isSome || (stx.symAt i).pendingArchiveLoad) = true then stx
               else ((stx.modifySym i fun x =>
                   { x with pendingArchiveLoad := true }).setFileLazy f.id
                     false).requestLoad f.id none
           | _ => stx) := by
        unfold SymTab.addLazyObject
        rw [insertFile_existing st n (some f) i hl]
        rfl
      have hmk : ∀ jj, (((st.modifySym i
          (markUsedIf (regularFileRef (some f)))).symAt jj)).kind =
          (st.symAt jj).kind := fun jj => symAt_mark_kind st i jj _
      have hkeq : ∀ j, ((st.addLazyObject f n).symAt j).kind =
          (st.symAt j).kind := by
        intro j
        rw [hstep]
        dsimp only
        cases hk : ((st.modifySym i
            (markUsedIf (regularFileRef (some f)))).symAt i).kind <;> simp only [hk]
        case undef wa ad =>
          split
          · exact hmk j
          · rw [symAt_requestLoad, symAt_setFileLazy, symAt_setPending_kind]
            exact hmk j
        all_goals exact hmk j
      exact fun j => Or.inl (hkeq j)

theorem stepOk_addLazyDLLSymbol (st : SymTab) (f d : Nat) (n : String) :
    stepOk st (st.addLazyDLLSymbol f d n) := by
  cases hl : lookupName st n with
  | none =>
      have hstep : st.addLazyDLLSymbol f d n =
          (st.extendWith n).replaceSym st.arena.length
            (SymbolKind.lazyDLL f d) false := by
        unfold SymTab.addLazyDLLSymbol
        rw [insert_fresh st n hl]
        rfl
      rw [hstep]
      exact stepOk_replace_bottom st _ _ _ _
        (fun j => kind_symAt_extendWith st n j) (blank_level_at_end st)
  | some i =>
      have hstep : st.addLazyDLLSymbol f d n =
          (match (st.symAt i).kind with
           | SymbolKind.undef wa _ =>
               if (wa.isSome || (st.symAt i).pendingArchiveLoad) = true then st
               else (st.modifySym i fun x =>
                   { x with pendingArchiveLoad := true }).requestLoad f (some d)
           | _ => st) := by
        unfold SymTab.addLazyDLLSymbol
        rw [insert_existing st n i hl]
        rfl
      have hkeq : ∀ j, ((st.addLazyDLLSymbol f d n).symAt j).kind =
          (st.symAt j).kind := by
        intro j
        rw [hstep]
        cases hk : (st.symAt i).kind <;> simp only [hk]
        case undef wa ad =>
          split
          · rfl
          · rw [symAt_requestLoad, symAt_setPending_kind]
      exact fun j => Or.inl (hkeq j)

theorem stepOk_addRegular (st : SymTab) (f : Option InputFile) (n : String)
    (v : Nat) (c : Option Nat) (w : Bool) : stepOk st (st.addRegular f n v c w).1 := by
  cases hl : lookupName st n with
  | none =>
      have hstep : (st.addRegular f n v c w).1 =
          ((st.extendWith n).modifySym st.arena.length
            (markUsedIf (regularFileRef f))).replaceSym st.arena.length
            (SymbolKind.definedRegular (f.map InputFile.id) false c v) w := by
        unfold SymTab.addRegular
        rw [insertFile_fresh st n f hl]
        rfl
      rw [hstep]
      exact stepOk_replace_bottom st _ _ _ _
        (fun j => by rw [symAt_mark_kind, kind_symAt_extendWith])
        (blank_level_at_end st)
  | some i =>
      unfold SymTab.addRegular
      rw [insertFile_existing st n f i hl]
      dsimp only
      split
      · exact stepOk_replace_defined st _ i _ w
          (fun j => symAt_mark_kind st i j _) rfl
      · split
        · exact fun j => Or.inl (symAt_mark_kind st i j _)
        · exact fun j => Or.inl (symAt_mark_kind st i j _)

theorem stepOk_addComdat (st : SymTab) (f : Option InputFile) (n : String)
    (v : Nat) : stepOk st (st.addComdat f n v).1 := by
  cases hl : lookupName st n with
  | none =>
      have hstep : (st.addComdat f n v).1 =
          ((st.extendWith n).modifySym st.arena.length
            (markUsedIf (regularFileRef f))).replaceSym st.arena.length
            (SymbolKind.definedRegular (f.map InputFile.id) true none v) false := by
        unfold SymTab.addComdat
        rw [insertFile_fresh st n f hl]
        rfl
      rw [hstep]
      exact stepOk_replace_bottom st _ _ _ _
        (fun j => by rw [symAt_mark_kind, kind_symAt_extendWith])
        (blank_level_at_end st)
  | some i =>
      unfold SymTab.addComdat
      rw [insertFile_existing st n f i hl]
      dsimp only
      split
      · exact stepOk_replace_defined st _ i _ false
          (fun j => symAt_mark_kind st i j _) rfl
      · split
        · split
          · exact fun j => Or.inl (symAt_mark_kind st i j _)
          · exact fun j => Or.inl (symAt_mark_kind st i j _)
        · exact fun j => Or.inl (symAt_mark_kind st i j _)

theorem symAt_setUsed_mark_kind (st : SymTab) (i j : Nat) (b : Bool) :
    (((st.modifySym i (markUsedIf b)).modifySym i
      (fun s => { s with isUsedInRegularObj := true })).symAt j).kind =
      (st.symAt j).kind := by
  rw [symAt_setUsed_kind, symAt_mark_kind]

theorem stepOk_addAbsolute (st : SymTab) (n : String) (va : Nat) :
    stepOk st (st.addAbsolute n va).1 := by
  cases hl : lookupName st n with
  | none =>
      have hstep : (st.addAbsolute n va).1 =
          (((st.extendWith n).modifySym st.arena.length
              (markUsedIf (regularFileRef none))).modifySym st.arena.length
            (fun s => { s with isUsedInRegularObj := true })).replaceSym
            st.arena.length (SymbolKind.definedAbsolute va) false := by
        unfold SymTab.addAbsolute
        rw [insertFile_fresh st n none hl]
        rfl
      rw [hstep]
      exact stepOk_replace_bottom st _ _ _ _
        (fun j => by rw [symAt_setUsed_kind, symAt_mark_kind, kind_symAt_extendWith])
        (blank_level_at_end st)
  | some i =>
      unfold SymTab.addAbsolute
      rw [insertFile_existing st n none i hl]
      dsimp only
      split
      · exact stepOk_replace_defined st _ i _ false
          (fun j => symAt_setUsed_mark_kind st i j _) rfl
      · split
        · split
          · exact fun j => Or.inl (symAt_setUsed_mark_kind st i j _)
          · exact fun j => Or.inl (symAt_setUsed_mark_kind st i j _)
        · split
          · exact fun j => Or.inl (symAt_setUsed_mark_kind st i j _)
          · exact fun j => Or.inl (symAt_setUsed_mark_kind st i j _)

theorem stepOk_addSynthetic (st : SymTab) (n : String) (c : Nat) :
    stepOk st (st.addSynthetic n c).1 := by
  cases hl : lookupName st n with
  | none =>
      have hstep : (st.addSynthetic n c).1 =
          (((st.extendWith n).modifySym st.arena.length
              (markUsedIf (regularFileRef none))).modifySym st.arena.length
            (fun s => { s with isUsedInRegularObj := true })).replaceSym
            st.arena.length (SymbolKind.definedSynthetic c) false := by
        unfold SymTab.addSynthetic
        rw [insertFile_fresh st n none hl]
        rfl
      rw [hstep]
      exact stepOk_replace_bottom st _ _ _ _
        (fun j => by rw [symAt_setUsed_kind, symAt_mark_kind, kind_symAt_extendWith])
        (blank_level_at_end st)
  | some i =>
      unfold SymTab.addSynthetic
      rw [insertFile_existing st n none i hl]
      dsimp only
      split
      · exact stepOk_replace_defined st _ i _ false
          (fun j => symAt_setUsed_mark_kind st i j _) rfl
      · split
        · exact fun j => Or.inl (symAt_setUsed_mark_kind st i j _)
        · exact fun j => Or.inl (symAt_setUsed_mark_kind st i j _)

theorem stepOk_addImportData (st : SymTab) (n : String) (f : Nat) :
    stepOk st (st.addImportData n f).1 := by
  cases hl : lookupName st n with
  | none =>
      have hstep : (st.addImportData n f).1 =
          (((st.extendWith n).modifySym st.arena.length
              (markUsedIf (regularFileRef none))).modifySym st.arena.length
            (fun s => { s with isUsedInRegularObj := true })).replaceSym
            st.arena.length (SymbolKind.definedImportData f) false := by
        unfold SymTab.addImportData
        rw [insertFile_fresh st n none hl]
        rfl
      rw [hstep]
      exact stepOk_replace_bottom st _ _ _ _
        (fun j => by rw [symAt_setUsed_kind, symAt_mark_kind, kind_symAt_extendWith])
        (blank_level_at_end st)
  | some i =>
      unfold SymTab.addImportData
      rw [insertFile_existing st n none i hl]
      dsimp only
      split
      · exact stepOk_replace_defined st _ i _ false
          (fun j => symAt_setUsed_mark_kind st i j _) rfl
      · exact fun j => Or.inl (symAt_setUsed_mark_kind st i j _)

theorem stepOk_addImportThunk (st : SymTab) (n : String) (f : Nat) :
    stepOk st (st.addImportThunk n f).1 := by
  cases hl : lookupName st n with
  | none =>
      have hstep : (st.addImportThunk n f).1 =
          (((st.extendWith n).modifySym st.arena.length
              (markUsedIf (regularFileRef none))).modifySym st.arena.length
            (fun s => { s with isUsedInRegularObj := true })).replaceSym
            st.arena.length (SymbolKind.definedImportThunk f) false := by
        unfold SymTab.addImportThunk
        rw [insertFile_fresh st n none hl]
        rfl
      rw [hstep]
      exact stepOk_replace_bottom st _ _ _ _
        (fun j => by rw [symAt_setUsed_kind, symAt_mark_kind, kind_symAt_extendWith])
        (blank_level_at_end st)
  | some i =>
      unfold SymTab.addImportThunk
      rw [insertFile_existing st n none i hl]
      dsimp only
      split
      · exact stepOk_replace_defined st _ i _ false
          (fun j => symAt_setUsed_mark_kind st i j _) rfl
      · exact fun j => Or.inl (symAt_setUsed_mark_kind st i j _)

theorem kindUpgrade_resolveWeakAlias (st : SymTab) (k : Nat) :
    kindUpgrade st (resolveWeakAliasInPlace st k).1 := by
  unfold resolveWeakAliasInPlace
  split
  · split
    · rename_i t heq hd
      exact kindUpgrade_replaceKeepingName st k _ hd
    · exact kindUpgrade_refl st
  · exact kindUpgrade_refl st

theorem kindUpgrade_findLocalSym (st : SymTab) (n : String) :
    kindUpgrade st (findLocalSym st n).1 := by
  unfold findLocalSym
  split
  · exact kindUpgrade_refl st
  · rename_i k heq
    split
    · dsimp only
      split
      · exact kindUpgrade_resolveWeakAlias st k
      · exact kindUpgrade_resolveWeakAlias st k
    · exact kindUpgrade_refl st

theorem kindUpgrade_setCLive_replace (st1 : SymTab) (c : Nat) (rIdx : Nat)
    (src : Symbol) (hd : src.kind.isDefined = true) :
    kindUpgrade st1 ((st1.setChunkLive c false).replaceKeepingName rIdx src) :=
  kindUpgrade_trans (kindUpgrade_of_eq (fun j => by rw [symAt_setChunkLive]))
    (kindUpgrade_replaceKeepingName _ _ _ hd)

theorem kindUpgrade_handleMinGW (st : SymTab) (si : Nat) (name : String) :
    kindUpgrade st (handleMinGWAutomaticImport st si name).1 := by
  unfold handleMinGWAutomaticImport
  split
  · exact kindUpgrade_refl st
  rename_i impIdx hi
  dsimp only
  split
  · exact fun j => Or.inl rfl
  rename_i hgood
  have hd : (st.symAt impIdx).kind.isDefined = true := by
    revert hgood
    cases (st.symAt impIdx).kind <;> simp [SymbolKind.isDefined]
  have h1 : kindUpgrade st
      ((st.replaceKeepingName si (st.symAt impIdx)).modifySym si
        (fun s => { s with isRuntimePseudoReloc := true })) :=
    kindUpgrade_trans (kindUpgrade_replaceKeepingName st si _ hd)
      (kindUpgrade_modify_kindpres _ si _ (fun _ => rfl))
  dsimp only
  generalize hst1 : (st.replaceKeepingName si (st.symAt impIdx)).modifySym si
    (fun s => { s with isRuntimePseudoReloc := true }) = st1 at h1 ⊢
  split
  · split
    · split
      · split
        · exact kindUpgrade_trans h1 (kindUpgrade_setCLive_replace st1 _ _ _ hd)
        · exact h1
      · exact h1
    · exact h1
  · exact h1

theorem kindUpgrade_resolveOneTail (st : SymTab) (acc : ResolveAcc) (i : Nat)
    (name : String) : kindUpgrade st (resolveOneTail st acc i name).1 := by
  unfold resolveOneTail
  split
  · exact kindUpgrade_refl st
  · dsimp only
    by_cases ha : st.config.autoImport = true
    · rw [if_pos ha]
      have hg := kindUpgrade_handleMinGW st i name
      generalize handleMinGWAutomaticImport st i name = r at hg ⊢
      obtain ⟨r1, r2⟩ := r
      dsimp only at hg ⊢
      split
      · exact hg
      · split
        · exact kindUpgrade_trans hg
            (kindUpgrade_replaceSym _ i (SymbolKind.definedAbsolute 0) false rfl)
        · exact hg
    · rw [if_neg ha]
      split
      · exact kindUpgrade_refl st
      · split
        · exact kindUpgrade_replaceSym st i (SymbolKind.definedAbsolute 0) false rfl
        · exact kindUpgrade_refl st

theorem kindUpgrade_resolveOneImp (st : SymTab) (acc : ResolveAcc) (i : Nat)
    (name : String) : kindUpgrade st (resolveOneImp st acc i name).1 := by
  unfold resolveOneImp
  split
  · dsimp only
    split
    · split
      · exact kindUpgrade_trans (kindUpgrade_findLocalSym st (name.drop 6))
          (kindUpgrade_replaceSym _ i (SymbolKind.definedLocalImport _) false rfl)
      · exact kindUpgrade_trans (kindUpgrade_findLocalSym st (name.drop 6))
          (kindUpgrade_resolveOneTail _ acc i name)
    · exact kindUpgrade_trans (kindUpgrade_findLocalSym st (name.drop 6))
        (kindUpgrade_resolveOneTail _ acc i name)
  · exact kindUpgrade_resolveOneTail st acc i name

theorem kindUpgrade_resolveOne (p : SymTab × ResolveAcc) (i : Nat) :
    kindUpgrade p.1 (resolveOne p i).1 := by
  unfold resolveOne
  dsimp only
  split
  · split
    · exact kindUpgrade_refl p.1
    · split
      · exact kindUpgrade_refl p.1
      · exact kindUpgrade_resolveOneImp p.1 p.2 i _
  · exact kindUpgrade_refl p.1

theorem kindUpgrade_foldl_resolve (idxs : List Nat) :
    ∀ p : SymTab × ResolveAcc, kindUpgrade p.1 (idxs.foldl resolveOne p).1 := by
  induction idxs with
  | nil => intro p; exact kindUpgrade_refl _
  | cons i rest ih =>
      intro p
      rw [List.foldl_cons]
      exact kindUpgrade_trans (kindUpgrade_resolveOne p i) (ih (resolveOne p i))

theorem symAt_reportProblemSymbols (st : SymTab) (undefs : List Nat)
    (li : Option (List (Nat × Nat))) (nb : Bool) (j : Nat) :
    (reportProblemSymbols st undefs li nb).symAt j = st.symAt j := by
  unfold reportProblemSymbols
  split <;> rfl

theorem stepOk_resolveRemaining (st : SymTab) :
    stepOk st (resolveRemainingUndefines st).1 := by
  have h1 := kindUpgrade_foldl_resolve (st.symMap.map Prod.snd) (st, ⟨[], [], []⟩)
  apply kindUpgrade_stepOk
  intro j
  unfold resolveRemainingUndefines
  dsimp only
  rw [symAt_reportProblemSymbols]
  exact h1 j

theorem level_symAt_setWeakAlias (st : SymTab) (i t : Nat) (ad : Bool) (j : Nat) :
    ((setWeakAlias st i t ad).symAt j).kind.level = (st.symAt j).kind.level := by
  unfold setWeakAlias
  refine symAt_modifySym_proj (fun s => s.kind.level) st i j _ ?_
  intro s
  cases hs : s.kind <;> simp [hs, SymbolKind.level]

theorem level_symAt_altStep (st : SymTab) (pr : String × String) (j : Nat) :
    ((resolveAlternateNamesStep st pr).symAt j).kind.level =
      (st.symAt j).kind.level := by
  unfold resolveAlternateNamesStep
  split
  · rfl
  · split
    · split
      · rfl
      · split
        · rfl
        · dsimp only
          split
          · rfl
          · rw [level_symAt_setWeakAlias]
            split
            · exact congrArg SymbolKind.level (kind_symAt_forceLazy st _ j)
            · rfl
    · rfl

theorem level_foldl_altStep (l : List (String × String)) :
    ∀ (st : SymTab) (j : Nat),
      ((l.foldl resolveAlternateNamesStep st).symAt j).kind.level =
        (st.symAt j).kind.level := by
  induction l with
  | nil => intro st j; rfl
  | cons p rest ih =>
      intro st j
      rw [List.foldl_cons, ih, level_symAt_altStep]

theorem kindOrBottom_altStep (st : SymTab) (pr : String × String) (j : Nat) :
    ((resolveAlternateNamesStep st pr).symAt j).kind = (st.symAt j).kind ∨
      (st.symAt j).kind.level = 0 := by
  unfold resolveAlternateNamesStep
  split
  · exact Or.inl rfl
  · rename_i i h1
    split
    · rename_i wa ad hk
      split
      · exact Or.inl rfl
      · split
        · exact Or.inl rfl
        · rename_i t h2
          dsimp only
          split
          · exact Or.inl rfl
          · by_cases hij : j = i
            · subst hij
              right
              rw [hk]
              rfl
            · left
              unfold setWeakAlias
              rw [symAt_modifySym_other _ i j _ (fun h => hij h.symm)]
              split
              · exact kind_symAt_forceLazy st _ j
              · rfl
    · exact Or.inl rfl

theorem kindOrBottom_foldl_altStep (l : List (String × String)) :
    ∀ (st : SymTab) (j : Nat),
      ((l.foldl resolveAlternateNamesStep st).symAt j).kind = (st.symAt j).kind ∨
        (st.symAt j).kind.level = 0 := by
  induction l with
  | nil => intro st j; exact Or.inl rfl
  | cons p rest ih =>
      intro st j
      rw [List.foldl_cons]
      rcases ih (resolveAlternateNamesStep st p) j with hmid | hmid
      · rcases kindOrBottom_altStep st p j with hs | hs
        · exact Or.inl (hmid.trans hs)
        · exact Or.inr hs
      · rcases kindOrBottom_altStep st p j with hs | hs
        · rw [hs] at hmid; exact Or.inr hmid
        · exact Or.inr hs

theorem stepOk_resolveAlternates (st : SymTab) :
    stepOk st (resolveAlternateNames st) := by
  intro j
  rcases kindOrBottom_foldl_altStep st.alternateNames st j with h | h
  · exact Or.inl h
  · exact Or.inr (Or.inr h)

/-- `addUndefined` either keeps every slot's level or performs the
documented `overrideLazy` downgrade of a lazy slot to `Undefined`. -/
theorem addUndefined_level (st : SymTab) (n : String) (f : Option InputFile)
    (ov : Bool) (i : Nat) :
    (st.symAt i).kind.level ≤ (((st.addUndefined n f ov).1).symAt i).kind.level ∨
    (ov = true ∧ (st.symAt i).kind.isLazy = true ∧
      ((st.addUndefined n f ov).1.symAt i).kind = SymbolKind.undef none false) := by
  cases hl : lookupName st n with
  | none =>
      have hstep : (st.addUndefined n f ov).1 =
          ((st.extendWith n).modifySym st.arena.length
            (markUsedIf (regularFileRef f))).replaceSym st.arena.length
            (SymbolKind.undef none false) false := by
        unfold SymTab.addUndefined
        rw [insertFile_fresh st n f hl]
        rfl
      rw [hstep]
      left
      exact stepOk_level (stepOk_replace_bottom st _ _ _ _
        (fun j => by rw [symAt_mark_kind, kind_symAt_extendWith])
        (blank_level_at_end st)) i
  | some s =>
      have hmk : ∀ jj, (((st.modifySym s
          (markUsedIf (regularFileRef f))).symAt jj)).kind = (st.symAt jj).kind :=
        fun jj => symAt_mark_kind st s jj _
      by_cases hc : ((st.symAt s).kind.isLazy && ov) = true
      · have hc' : ((((st.modifySym s
            (markUsedIf (regularFileRef f))).symAt s)).kind.isLazy && ov) = true := by
          rw [hmk s]; exact hc
        have hstep : (st.addUndefined n f ov).1 =
            (st.modifySym s (markUsedIf (regularFileRef f))).replaceSym s
              (SymbolKind.undef none false) false := by
          unfold SymTab.addUndefined
          rw [insertFile_existing st n f s hl]
          dsimp only
          rw [if_pos (by rw [Bool.false_or]; exact hc')]
        rcases eq_or_ne i s with rfl | hne
        · right
          refine ⟨(Bool.and_eq_true_iff.mp hc).2, (Bool.and_eq_true_iff.mp hc).1, ?_⟩
          rw [hstep]
          apply symAt_replaceSym_kind
          rw [modifySym_arena_length]
          exact valid_of_kind_ne_blank st i (by
            have := (Bool.and_eq_true_iff.mp hc).1
            intro hblank
            rw [hblank] at this
            simp [SymbolKind.isLazy] at this)
        · left
          rw [hstep, show ((st.modifySym s
              (markUsedIf (regularFileRef f))).replaceSym s
              (SymbolKind.undef none false) false).symAt i =
              (st.modifySym s (markUsedIf (regularFileRef f))).symAt i from
            symAt_modifySym_other _ _ _ _ (Ne.symm hne), hmk i]
      · have hc' : ((((st.modifySym s
            (markUsedIf (regularFileRef f))).symAt s)).kind.isLazy && ov) = false := by
          rw [hmk s]
          simpa using hc
        have hkeq : ∀ j, (((st.addUndefined n f ov).1).symAt j).kind =
            (st.symAt j).kind := by
          intro j
          unfold SymTab.addUndefined
          rw [insertFile_existing st n f s hl]
          dsimp only
          rw [if_neg (by rw [Bool.false_or, hc']; exact Bool.false_ne_true)]
          split
          · rw [kind_symAt_forceLazy]
            exact hmk j
          · exact hmk j
        left
        rw [hkeq i]

theorem stepOk_addCommon (st : SymTab) (f : Option InputFile) (n : String)
    (sz : Nat) : stepOk st (st.addCommon f n sz).1 := by
  cases hl : lookupName st n with
  | none =>
      have hstep : (st.addCommon f n sz).1 =
          ((st.extendWith n).modifySym st.arena.length
            (markUsedIf (regularFileRef f))).replaceSym st.arena.length
            (SymbolKind.definedCommon (f.map InputFile.id) sz) false := by
        unfold SymTab.addCommon
        rw [insertFile_fresh st n f hl]
        rfl
      rw [hstep]
      exact stepOk_replace_bottom st _ _ _ _
        (fun j => by rw [symAt_mark_kind, kind_symAt_extendWith])
        (blank_level_at_end st)
  | some i =>
      unfold SymTab.addCommon
      rw [insertFile_existing st n f i hl]
      dsimp only
      split
      · exact stepOk_replace_defined st _ i _ false
          (fun j => symAt_mark_kind st i j _) rfl
      · split
        · split
          · exact stepOk_replace_defined st _ i _ false
              (fun j => symAt_mark_kind st i j _) rfl
          · exact fun j => Or.inl (symAt_mark_kind st i j _)
        · exact fun j => Or.inl (symAt_mark_kind st i j _)

theorem applyOp_step_or_override (st : SymTab) (op : LinkOp) (i : Nat) :
    (st.symAt i).kind.level ≤ ((applyOp st op).symAt i).kind.level ∨
    (∃ n f, op = LinkOp.undefinedOp n f true ∧
      (st.symAt i).kind.isLazy = true ∧
      ((applyOp st op).symAt i).kind = SymbolKind.undef none false) := by
  cases op with
  | undefinedOp n f ov =>
      rcases addUndefined_level st n f ov i with hle | ⟨hov, hlazy, hafter⟩
      · exact Or.inl hle
      · exact Or.inr ⟨n, f, by rw [hov], hlazy, hafter⟩
  | lazyArchiveOp f m n => exact Or.inl (stepOk_level (stepOk_addLazyArchive st f m n) i)
  | lazyObjectOp f n => exact Or.inl (stepOk_level (stepOk_addLazyObject st f n) i)
  | lazyDLLOp f d n => exact Or.inl (stepOk_level (stepOk_addLazyDLLSymbol st f d n) i)
  | regularOp f n v c w => exact Or.inl (stepOk_level (stepOk_addRegular st f n v c w) i)
  | comdatOp f n v => exact Or.inl (stepOk_level (stepOk_addComdat st f n v) i)
  | commonOp f n sz => exact Or.inl (stepOk_level (stepOk_addCommon st f n sz) i)
  | absoluteOp n va => exact Or.inl (stepOk_level (stepOk_addAbsolute st n va) i)
  | syntheticOp n c => exact Or.inl (stepOk_level (stepOk_addSynthetic st n c) i)
  | importDataOp n f => exact Or.inl (stepOk_level (stepOk_addImportData st n f) i)
  | importThunkOp n f => exact Or.inl (stepOk_level (stepOk_addImportThunk st n f) i)
  | resolveRemainingOp => exact Or.inl (stepOk_level (stepOk_resolveRemaining st) i)
  | resolveAlternatesOp => exact Or.inl (stepOk_level (stepOk_resolveAlternates st) i)

theorem applyOp_level (st : SymTab) (op : LinkOp) (i : Nat)
    (h : (match op with
          | LinkOp.undefinedOp _ _ ov => !ov
          | _ => true) = true) :
    (st.symAt i).kind.level ≤ ((applyOp st op).symAt i).kind.level := by
  rcases applyOp_step_or_override st op i with hle | ⟨n, f, hop, _, _⟩
  · exact hle
  · subst hop
    simp at h

theorem observedLevels_head (st : SymTab) (i : Nat) (ops : List LinkOp) :
    (observedLevels st i ops).head? = some ((st.symAt i).kind.level) := by
  cases ops <;> rfl

theorem observedLevels_chain (ops : List LinkOp) :
    ∀ (st : SymTab) (i : Nat), noOverrideLazy ops = true →
      List.Chain' (· ≤ ·) (observedLevels st i ops) := by
  induction ops with
  | nil => intro st i _; simp [observedLevels]
  | cons op rest ih =>
      intro st i h
      simp only [noOverrideLazy, List.all_cons, Bool.and_eq_true] at h
      simp only [observedLevels, List.chain'_cons']
      constructor
      · intro b hb
        rw [observedLevels_head, Option.mem_some_iff] at hb
        subst hb
        exact applyOp_level st op i h.1
      · exact ih (applyOp st op) i h.2

/-- C2 (amended). Monotonic kind progression holds for every table operation
except the `overrideLazy` form of `addUndefined`: each operation either keeps
every slot's level (`Undefined/blank = 0 < Lazy* = 1 < Defined* = 2`)
non-decreasing, or it is an `addUndefined(..., overrideLazy=true)` call that
downgrades a lazy slot back to `Undefined`; consequently, along any run that
avoids that form, the sequence of levels a slot passes through is
non-decreasing. (The original claim, which admitted only the common-size
max-merge and the COMDAT-duplicate no-op as exceptions, is refuted by the
counterexample.) -/
theorem c2_monotonic_kind_progression :
    (∀ (st : SymTab) (op : LinkOp) (i : Nat),
      (st.symAt i).kind.level ≤ ((applyOp st op).symAt i).kind.level ∨
      (∃ n f, op = LinkOp.undefinedOp n f true ∧
        (st.symAt i).kind.isLazy = true ∧
        ((applyOp st op).symAt i).kind = SymbolKind.undef none false)) ∧
    (∀ (st : SymTab) (i : Nat) (ops : List LinkOp),
      noOverrideLazy ops = true →
      List.Chain' (· ≤ ·) (observedLevels st i ops)) :=
  ⟨applyOp_step_or_override, fun st i ops h => observedLevels_chain ops st i h⟩

/-- C2, counterexample to the original claim: an archive makes `foo` lazy
(level 1), then `addUndefined` with `overrideLazy = true` downgrades the slot
back to `Undefined` (level 0) — a strictly decreasing step that is neither
the common-size max-merge nor the COMDAT-duplicate no-op. -/
theorem c2_monotonic_kind_progression_counterexample :
    ¬ List.Chain' (· ≤ ·) (observedLevels (SymTab.emptyTab cfgDefault) 0
      [LinkOp.lazyArchiveOp 0 0 "foo", LinkOp.undefinedOp "foo" none true]) := by
  have h : observedLevels (SymTab.emptyTab cfgDefault) 0
      [LinkOp.lazyArchiveOp 0 0 "foo", LinkOp.undefinedOp "foo" none true] =
      [0, 1, 0] := by decide
  rw [h]
  intro hch
  simp [List.chain'_cons] at hch

theorem c2_monotonic_kind_progression_witness :
    List.Chain' (· ≤ ·) (observedLevels (SymTab.emptyTab cfgDefault) 0
      [LinkOp.undefinedOp "bar" none false, LinkOp.lazyArchiveOp 7 3 "bar",
       LinkOp.regularOp (some ⟨9, false⟩) "bar" 0 (some 5) false]) :=
  c2_monotonic_kind_progression.2 (SymTab.emptyTab cfgDefault) 0
    [LinkOp.undefinedOp "bar" none false, LinkOp.lazyArchiveOp 7 3 "bar",
     LinkOp.regularOp (some ⟨9, false⟩) "bar" 0 (some 5) false] (by decide)

theorem name_symAt_replaceSym (st : SymTab) (i : Nat) (k : SymbolKind) (w : Bool)
    (j : Nat) : ((st.replaceSym i k w).symAt j).name = (st.symAt j).name :=
  symAt_modifySym_proj Symbol.name st i j _ (fun _ => rfl)

theorem symAt_replaceSym_other (st : SymTab) (i : Nat) (k : SymbolKind) (w : Bool)
    (j : Nat) (h : i ≠ j) : (st.replaceSym i k w).symAt j = st.symAt j :=
  symAt_modifySym_other st i j _ h

theorem kind_symAt_replaceSym_self (st : SymTab) (i : Nat) (k : SymbolKind)
    (w : Bool) (h : i < st.arena.length) :
    ((st.replaceSym i k w).symAt i).kind = k := by
  unfold SymTab.replaceSym
  rw [symAt_modifySym_self st i _ h]

theorem resolveOne_char (p : SymTab × ResolveAcc) (k : Nat)
    (hauto : p.1.config.autoImport = false)
    (himp : (p.1.symAt k).name.startsWith "__imp_" = false) :
    (resolveOne p k).1 = p.1 ∨
    (p.1.config.forceUnresolved = true ∧
      (∃ wa ad, (p.1.symAt k).kind = SymbolKind.undef wa ad) ∧
      resolveOne p k = (p.1.replaceSym k (SymbolKind.definedAbsolute 0) false,
        { p.2 with undefs := p.2.undefs ++ [k] })) := by
  unfold resolveOne
  dsimp only
  split
  · rename_i wa ad hk
    by_cases hu : (!(p.1.symAt k).isUsedInRegularObj) = true
    · rw [if_pos hu]
      exact Or.inl rfl
    · rw [if_neg hu]
      by_cases hw : (weakAliasTarget p.1 k).isSome = true
      · rw [if_pos hw]
        exact Or.inl rfl
      · rw [if_neg hw]
        unfold resolveOneImp
        rw [if_neg (by simp [himp])]
        unfold resolveOneTail
        by_cases hp : containsPchSym (p.1.symAt k).name = true
        · rw [if_pos hp]
          exact Or.inl rfl
        · rw [if_neg hp]
          dsimp only
          simp only [hauto, Bool.false_eq_true, if_false]
          by_cases hf : p.1.config.forceUnresolved = true
          · rw [if_pos hf]
            exact Or.inr ⟨hf, ⟨wa, ad, hk⟩, rfl⟩
          · rw [if_neg hf]
            exact Or.inl rfl
  · exact Or.inl rfl

theorem resolveOne_at_undef (p : SymTab × ResolveAcc) (i : Nat) (ad : Bool)
    (hk : (p.1.symAt i).kind = SymbolKind.undef none ad)
    (hu : (p.1.symAt i).isUsedInRegularObj = true)
    (himp : (p.1.symAt i).name.startsWith "__imp_" = false)
    (hpch : containsPchSym (p.1.symAt i).name = false)
    (hauto : p.1.config.autoImport = false) :
    resolveOne p i =
      ((if p.1.config.forceUnresolved = true then
          p.1.replaceSym i (SymbolKind.definedAbsolute 0) false
        else p.1),
        { p.2 with undefs := p.2.undefs ++ [i] }) := by
  unfold resolveOne
  dsimp only
  split
  · rw [if_neg (by simp [hu])]
    have hwt : weakAliasTarget p.1 i = none := by
      unfold weakAliasTarget
      rw [hk]
      rfl
    rw [if_neg (by simp [hwt])]
    unfold resolveOneImp
    rw [if_neg (by simp [himp])]
    unfold resolveOneTail
    rw [if_neg (by simp [hpch])]
    dsimp only
    simp only [hauto, Bool.false_eq_true, if_false]
  · rename_i hne
    exact absurd hk (hne none ad)

theorem resolveOneTail_undefs (stx : SymTab) (acc : ResolveAcc) (k : Nat)
    (nm : String) :
    ∃ t, (resolveOneTail stx acc k nm).2.undefs = acc.undefs ++ t := by
  unfold resolveOneTail
  split
  · exact ⟨[], (List.append_nil _).symm⟩
  · dsimp only
    generalize (if stx.config.autoImport = true then
      handleMinGWAutomaticImport stx k nm else (stx, false)) = r
    obtain ⟨r1, r2⟩ := r
    dsimp only
    split
    · exact ⟨[], (List.append_nil _).symm⟩
    · exact ⟨[k], rfl⟩

theorem resolveOneImp_undefs (stx : SymTab) (acc : ResolveAcc) (k : Nat)
    (nm : String) :
    ∃ t, (resolveOneImp stx acc k nm).2.undefs = acc.undefs ++ t := by
  unfold resolveOneImp
  split
  · dsimp only
    generalize findLocalSym stx (nm.drop 6) = r
    obtain ⟨r1, r2⟩ := r
    dsimp only
    cases r2 with
    | none => exact resolveOneTail_undefs r1 acc k nm
    | some impIdx =>
        split
        · split
          · exact ⟨[], (List.append_nil _).symm⟩
          · exact resolveOneTail_undefs r1 acc k nm
        · exact resolveOneTail_undefs r1 acc k nm
  · exact resolveOneTail_undefs stx acc k nm

theorem resolveOne_undefs (p : SymTab × ResolveAcc) (k : Nat) :
    ∃ t, (resolveOne p k).2.undefs = p.2.undefs ++ t := by
  unfold resolveOne
  dsimp only
  split
  · by_cases hu : (!(p.1.symAt k).isUsedInRegularObj) = true
    · rw [if_pos hu]
      exact ⟨[], (List.append_nil _).symm⟩
    · rw [if_neg hu]
      by_cases hw : (weakAliasTarget p.1 k).isSome = true
      · rw [if_pos hw]
        exact ⟨[], (List.append_nil _).symm⟩
      · rw [if_neg hw]
        exact resolveOneImp_undefs p.1 p.2 k _
  · exact ⟨[], (List.append_nil _).symm⟩

theorem resolveOne_undefs_mem (p : SymTab × ResolveAcc) (k : Nat) (x : Nat)
    (h : x ∈ p.2.undefs) : x ∈ (resolveOne p k).2.undefs := by
  obtain ⟨t, ht⟩ := resolveOne_undefs p k
  rw [ht]
  exact List.mem_append_left t h

theorem resolveOne_inv (i : Nat) (p : SymTab × ResolveAcc) (k : Nat)
    (hauto : p.1.config.autoImport = false)
    (himp : (p.1.symAt k).name.startsWith "__imp_" = false) :
    (resolveOne p k).1.config = p.1.config ∧
    (resolveOne p k).1.objFiles = p.1.objFiles ∧
    (∀ j, ((resolveOne p k).1.symAt j).name = (p.1.symAt j).name) ∧
    ((resolveOne p k).1.symAt i = p.1.symAt i ∨
      (k = i ∧ p.1.config.forceUnresolved = true ∧
        (∃ wa ad, (p.1.symAt i).kind = SymbolKind.undef wa ad) ∧
        ((resolveOne p k).1.symAt i).kind = SymbolKind.definedAbsolute 0 ∧
        i ∈ (resolveOne p k).2.undefs)) := by
  rcases resolveOne_char p k hauto himp with hL | ⟨hf, ⟨wa, ad, hkind⟩, hR⟩
  · rw [hL]
    exact ⟨rfl, rfl, fun _ => rfl, Or.inl rfl⟩
  · rw [hR]
    refine ⟨rfl, rfl, fun j => name_symAt_replaceSym _ _ _ _ j, ?_⟩
    by_cases hki : k = i
    · subst hki
      refine Or.inr ⟨rfl, hf, ⟨wa, ad, hkind⟩, ?_, ?_⟩
      · have hb : k < p.1.arena.length :=
          valid_of_kind_ne_blank p.1 k (by rw [hkind]; intro h; cases h)
        exact kind_symAt_replaceSym_self p.1 k _ false hb
      · exact List.mem_append_right _ (by exact List.mem_singleton.mpr rfl)
    · exact Or.inl (symAt_replaceSym_other p.1 k _ false i hki)

theorem resolveLoop_main (st : SymTab) (i : Nat) (ad : Bool)
    (hauto : st.config.autoImport = false)
    (hnames : ∀ j, ((st.symAt j).name).startsWith "__imp_" = false)
    (hk : (st.symAt i).kind = SymbolKind.undef none ad)
    (hu : (st.symAt i).isUsedInRegularObj = true)
    (hpch : containsPchSym (st.symAt i).name = false) :
    ∀ (idxs : List Nat) (p : SymTab × ResolveAcc),
      p.1.config = st.config → p.1.objFiles = st.objFiles →
      (∀ j, (p.1.symAt j).name = (st.symAt j).name) →
      ((idxs.foldl resolveOne p).1.config = st.config ∧
       (idxs.foldl resolveOne p).1.objFiles = st.objFiles ∧
       (∀ j, ((idxs.foldl resolveOne p).1.symAt j).name = (st.symAt j).name) ∧
       (∀ x ∈ p.2.undefs, x ∈ (idxs.foldl resolveOne p).2.undefs) ∧
       ((idxs.foldl resolveOne p).1.symAt i = p.1.symAt i ∨
         (((idxs.foldl resolveOne p).1.symAt i).kind = SymbolKind.definedAbsolute 0 ∧
           st.config.forceUnresolved = true ∧
           i ∈ (idxs.foldl resolveOne p).2.undefs)) ∧
       (i ∈ idxs → p.1.symAt i = st.symAt i →
         ((st.config.forceUnresolved = true →
            ((idxs.foldl resolveOne p).1.symAt i).kind =
              SymbolKind.definedAbsolute 0) ∧
          (st.config.forceUnresolved = false →
            (idxs.foldl resolveOne p).1.symAt i = st.symAt i) ∧
          i ∈ (idxs.foldl resolveOne p).2.undefs))) := by
  intro idxs
  induction idxs with
  | nil =>
      intro p hc ho hn
      exact ⟨hc, ho, hn, fun x hx => hx, Or.inl rfl, fun hmem => absurd hmem
        (List.not_mem_nil i)⟩
  | cons k rest ih =>
      intro p hc ho hn
      have hauto' : p.1.config.autoImport = false := by rw [hc]; exact hauto
      have himp' : (p.1.symAt k).name.startsWith "__imp_" = false := by
        rw [hn k]; exact hnames k
      obtain ⟨hc1, ho1, hn1, hslot1⟩ := resolveOne_inv i p k hauto' himp'
      have hc' : (resolveOne p k).1.config = st.config := hc1.trans hc
      have ho' : (resolveOne p k).1.objFiles = st.objFiles := ho1.trans ho
      have hn' : ∀ j, ((resolveOne p k).1.symAt j).name = (st.symAt j).name :=
        fun j => (hn1 j).trans (hn j)
      obtain ⟨qc, qo, qn, qmono, qslot, qfin⟩ := ih (resolveOne p k) hc' ho' hn'
      rw [List.foldl_cons]
      refine ⟨qc, qo, qn, ?_, ?_, ?_⟩
      · intro x hx
        exact qmono x (resolveOne_undefs_mem p k x hx)
      · rcases hslot1 with hL | ⟨hki, hf, hwit, habs, hmem⟩
        · rcases qslot with qL | qR
          · exact Or.inl (qL.trans hL)
          · exact Or.inr qR
        · rcases qslot with qL | qR
          · exact Or.inr ⟨by rw [qL]; exact habs, by rw [← hc]; exact hf,
              qmono i hmem⟩
          · exact Or.inr qR
      · intro hmem hpi
        rcases List.mem_cons.mp hmem with hki | hrest
        · subst hki
          have hstep : resolveOne p i =
              ((if p.1.config.forceUnresolved = true then
                  p.1.replaceSym i (SymbolKind.definedAbsolute 0) false
                else p.1),
                { p.2 with undefs := p.2.undefs ++ [i] }) :=
            resolveOne_at_undef p i ad (by rw [hpi]; exact hk)
              (by rw [hpi]; exact hu) (by rw [hpi]; exact hnames i)
              (by rw [hpi]; exact hpch) hauto'
          have hforce : p.1.config.forceUnresolved = st.config.forceUnresolved := by
            rw [hc]
          have hmem' : i ∈ (resolveOne p i).2.undefs := by
            rw [hstep]
            exact List.mem_append_right _ (by exact List.mem_singleton.mpr rfl)
          by_cases hf : st.config.forceUnresolved = true
          · have habs : ((resolveOne p i).1.symAt i).kind =
                SymbolKind.definedAbsolute 0 := by
              rw [hstep]
              dsimp only
              rw [if_pos (hforce.trans hf)]
              have hb : i < p.1.arena.length :=
                valid_of_kind_ne_blank p.1 i (by rw [hpi, hk]; intro h; cases h)
              exact kind_symAt_replaceSym_self p.1 i _ false hb
            refine ⟨fun _ => ?_,
              fun hf0 => Bool.noConfusion (hf.symm.trans hf0),
              qmono i hmem'⟩
            rcases qslot with qL | qR
            · rw [qL]; exact habs
            · exact qR.1
          · have hf0 : st.config.forceUnresolved = false := by
              cases hx : st.config.forceUnresolved
              · rfl
              · exact absurd hx hf
            have hunc : (resolveOne p i).1.symAt i = st.symAt i := by
              rw [hstep]
              dsimp only
              rw [if_neg (by rw [hforce, hf0]; exact fun h => Bool.noConfusion h)]
              exact hpi
            refine ⟨fun hf1 => absurd hf1 hf, fun _ => ?_, qmono i hmem'⟩
            rcases qslot with qL | qR
            · rw [qL]; exact hunc
            · exact absurd qR.2.1 hf
        · rcases hslot1 with hL | ⟨hki, hf, hwit, habs, hmem'⟩
          · exact qfin hrest (by rw [hL]; exact hpi)
          · have hfst : st.config.forceUnresolved = true := by
              rw [← hc]; exact hf
            refine ⟨fun _ => ?_,
              fun hf0 => Bool.noConfusion (hfst.symm.trans hf0),
              qmono i hmem'⟩
            rcases qslot with qL | qR
            · rw [qL]; exact habs
            · exact qR.1

theorem addRefToDiags_mem_self (uds : List UndefinedDiag) (s : Nat)
    (fr : UDFileRef) :
    s ∈ (addRefToDiags uds s fr).map UndefinedDiag.sym := by
  induction uds with
  | nil => exact List.mem_singleton.mpr rfl
  | cons ud rest ih =>
      unfold addRefToDiags
      by_cases h : ud.sym = s
      · rw [if_pos h]
        exact List.mem_cons.mpr (Or.inl h.symm)
      · rw [if_neg h]
        exact List.mem_cons.mpr (Or.inr ih)

theorem addRefToDiags_mem_mono (uds : List UndefinedDiag) (s : Nat)
    (fr : UDFileRef) (t : Nat) (h : t ∈ uds.map UndefinedDiag.sym) :
    t ∈ (addRefToDiags uds s fr).map UndefinedDiag.sym := by
  induction uds with
  | nil => exact absurd h (List.not_mem_nil t)
  | cons ud rest ih =>
      unfold addRefToDiags
      rcases List.mem_cons.mp h with h1 | h2
      · by_cases hs : ud.sym = s
        · rw [if_pos hs]
          exact List.mem_cons.mpr (Or.inl h1)
        · rw [if_neg hs]
          exact List.mem_cons.mpr (Or.inl h1)
      · by_cases hs : ud.sym = s
        · rw [if_pos hs]
          exact List.mem_cons.mpr (Or.inr h2)
        · rw [if_neg hs]
          exact List.mem_cons.mpr (Or.inr (ih h2))

theorem processSyms_mem_mono (undefs : List Nat)
    (li : Option (List (Nat × Nat))) (file : DiagFile) :
    ∀ (syms : List (Option Nat)) (idx : Nat)
      (acc : List Diag × List UndefinedDiag) (t : Nat),
      t ∈ acc.2.map UndefinedDiag.sym →
      t ∈ (processSyms undefs li file syms idx acc).2.map UndefinedDiag.sym := by
  intro syms
  induction syms with
  | nil => intro idx acc t h; exact h
  | cons o rest ih =>
      intro idx acc t h
      cases o with
      | none => exact ih (idx + 1) acc t h
      | some s =>
          obtain ⟨ds, uds⟩ := acc
          unfold processSyms
          apply ih
          dsimp only
          by_cases hs : s ∈ undefs
          · rw [if_pos hs]
            exact addRefToDiags_mem_mono uds s _ t h
          · rw [if_neg hs]
            exact h

theorem processSyms_mem_self (undefs : List Nat)
    (li : Option (List (Nat × Nat))) (file : DiagFile) (i : Nat)
    (hiu : i ∈ undefs) :
    ∀ (syms : List (Option Nat)) (idx : Nat)
      (acc : List Diag × List UndefinedDiag),
      some i ∈ syms →
      i ∈ (processSyms undefs li file syms idx acc).2.map UndefinedDiag.sym := by
  intro syms
  induction syms with
  | nil => intro idx acc h; exact absurd h (List.not_mem_nil _)
  | cons o rest ih =>
      intro idx acc h
      cases o with
      | none =>
          rcases List.mem_cons.mp h with h1 | h2
          · exact absurd h1 (by intro hx; cases hx)
          · exact ih (idx + 1) acc h2
      | some s =>
          obtain ⟨ds, uds⟩ := acc
          rcases List.mem_cons.mp h with h1 | h2
          · have hsi : s = i := by injection h1.symm
            subst hsi
            unfold processSyms
            apply processSyms_mem_mono
            dsimp only
            rw [if_pos hiu]
            exact addRefToDiags_mem_self uds s _
          · exact ih (idx + 1) (_, _) h2

theorem foldlObj_mem (undefs : List Nat) (li : Option (List (Nat × Nat)))
    (i : Nat) (hiu : i ∈ undefs) :
    ∀ (files : List ObjFileRec) (acc : List Diag × List UndefinedDiag),
      ((∃ f ∈ files, some i ∈ f.symbols) ∨ i ∈ acc.2.map UndefinedDiag.sym) →
      i ∈ ((files.foldl
        (fun a f => processSyms undefs li (DiagFile.objFile f) f.symbols 0 a)
        acc).2.map UndefinedDiag.sym) := by
  intro files
  induction files with
  | nil =>
      intro acc h
      rcases h with ⟨f, hf, _⟩ | h2
      · exact absurd hf (List.not_mem_nil f)
      · exact h2
  | cons f rest ih =>
      intro acc h
      rw [List.foldl_cons]
      rcases h with ⟨g, hg, hgi⟩ | h2
      · rcases List.mem_cons.mp hg with rfl | hgrest
        · exact ih _ (Or.inr (processSyms_mem_self undefs li
            (DiagFile.objFile g) i hiu g.symbols 0 acc hgi))
        · exact ih _ (Or.inl ⟨g, hgrest, hgi⟩)
      · exact ih _ (Or.inr (processSyms_mem_mono undefs li
          (DiagFile.objFile f) f.symbols 0 acc i h2))

theorem reportProblem_diag_mem (stx : SymTab) (undefs : List Nat)
    (li : Option (List (Nat × Nat))) (i : Nat) (hiu : i ∈ undefs)
    (href : ∃ f ∈ stx.objFiles, some i ∈ f.symbols) :
    ∃ locs n, Diag.undefinedSymbol (errorOrWarnLevel stx.config) i locs n ∈
      (reportProblemSymbols stx undefs li false).diags := by
  unfold reportProblemSymbols
  rw [if_neg (by
    intro hc
    rw [Bool.and_eq_true] at hc
    have : undefs = [] := by
      cases undefs with
      | nil => rfl
      | cons a l => cases hc.1
    rw [this] at hiu
    exact absurd hiu (List.not_mem_nil i))]
  dsimp only
  have hmem : i ∈ ((stx.objFiles.foldl
      (fun a f => processSyms undefs li (DiagFile.objFile f) f.symbols 0 a)
      ([], [])).2.map UndefinedDiag.sym) :=
    foldlObj_mem undefs li i hiu stx.objFiles ([], []) (Or.inl href)
  obtain ⟨ud, hud, hsym⟩ := List.mem_map.mp hmem
  refine ⟨(accumLocations ud.files ([], 0)).1,
    (accumLocations ud.files ([], 0)).2, ?_⟩
  have hd : reportUndefinedSymbol stx ud =
      Diag.undefinedSymbol (errorOrWarnLevel stx.config) i
        (accumLocations ud.files ([], 0)).1
        (accumLocations ud.files ([], 0)).2 := by
    unfold reportUndefinedSymbol
    rw [hsym]
  rw [← hd]
  exact List.mem_append_right _
    (List.mem_map_of_mem (reportUndefinedSymbol stx) hud)

/-- C5. Forced-unresolved fallback: a symbol that is still `Undefined` with
no weak alias when `resolveRemainingUndefines` runs (and is referenced from a
regular object file; `__imp_` names, precompiled-header symbols and MinGW
auto-import are out of play) is replaced by `DefinedAbsolute 0` with a
warning-severity undefined-symbol diagnostic when `forceUnresolved` is set,
and is left untouched with an error-severity diagnostic otherwise. -/
theorem c5_forced_unresolved_fallback
    (st : SymTab) (i : Nat) (ad : Bool)
    (hauto : st.config.autoImport = false)
    (hnames : ∀ j, j < st.arena.length →
      ((st.symAt j).name).startsWith "__imp_" = false)
    (hk : (st.symAt i).kind = SymbolKind.undef none ad)
    (hu : (st.symAt i).isUsedInRegularObj = true)
    (hpch : containsPchSym (st.symAt i).name = false)
    (hidx : i ∈ st.symMap.map Prod.snd)
    (href : ∃ f ∈ st.objFiles, some i ∈ f.symbols) :
    (st.config.forceUnresolved = true →
      ((resolveRemainingUndefines st).1.symAt i).kind =
          SymbolKind.definedAbsolute 0 ∧
      ∃ locs n, Diag.undefinedSymbol DiagLevel.warn i locs n ∈
        (resolveRemainingUndefines st).1.diags) ∧
    (st.config.forceUnresolved = false →
      (resolveRemainingUndefines st).1.symAt i = st.symAt i ∧
      ∃ locs n, Diag.undefinedSymbol DiagLevel.err i locs n ∈
        (resolveRemainingUndefines st).1.diags) := by
  have hnames' : ∀ j, ((st.symAt j).name).startsWith "__imp_" = false := by
    intro j
    by_cases hj : j < st.arena.length
    · exact hnames j hj
    · rw [symAt_oob st j (Nat.le_of_not_lt hj)]
      rfl
  obtain ⟨qc, qo, qn, qmono, qslot, qfin⟩ :=
    resolveLoop_main st i ad hauto hnames' hk hu hpch
      (st.symMap.map Prod.snd) (st, ⟨[], [], []⟩) rfl rfl (fun j => rfl)
  have hfin := qfin hidx rfl
  have hres : (resolveRemainingUndefines st).1 =
      reportProblemSymbols
        ((st.symMap.map Prod.snd).foldl resolveOne (st, ⟨[], [], []⟩)).1
        ((st.symMap.map Prod.snd).foldl resolveOne (st, ⟨[], [], []⟩)).2.undefs
        (if st.config.warnLocallyDefinedImported then
          some ((st.symMap.map Prod.snd).foldl resolveOne
            (st, ⟨[], [], []⟩)).2.localImports
         else none) false := rfl
  refine ⟨fun hf => ⟨?_, ?_⟩, fun hf => ⟨?_, ?_⟩⟩
  · rw [hres, symAt_reportProblemSymbols]
    exact hfin.1 hf
  · rw [hres]
    obtain ⟨locs, n, hmem⟩ := reportProblem_diag_mem
      ((st.symMap.map Prod.snd).foldl resolveOne (st, ⟨[], [], []⟩)).1
      ((st.symMap.map Prod.snd).foldl resolveOne (st, ⟨[], [], []⟩)).2.undefs
      (if st.config.warnLocallyDefinedImported then
        some ((st.symMap.map Prod.snd).foldl resolveOne
          (st, ⟨[], [], []⟩)).2.localImports
       else none)
      i hfin.2.2 (by rw [qo]; exact href)
    refine ⟨locs, n, ?_⟩
    have hlvl : errorOrWarnLevel
        ((st.symMap.map Prod.snd).foldl resolveOne
          (st, ⟨[], [], []⟩)).1.config = DiagLevel.warn := by
      rw [qc]
      unfold errorOrWarnLevel
      rw [if_pos hf]
    rw [hlvl] at hmem
    exact hmem
  · rw [hres, symAt_reportProblemSymbols]
    exact hfin.2.1 hf
  · rw [hres]
    obtain ⟨locs, n, hmem⟩ := reportProblem_diag_mem
      ((st.symMap.map Prod.snd).foldl resolveOne (st, ⟨[], [], []⟩)).1
      ((st.symMap.map Prod.snd).foldl resolveOne (st, ⟨[], [], []⟩)).2.undefs
      (if st.config.warnLocallyDefinedImported then
        some ((st.symMap.map Prod.snd).foldl resolveOne
          (st, ⟨[], [], []⟩)).2.localImports
       else none)
      i hfin.2.2 (by rw [qo]; exact href)
    refine ⟨locs, n, ?_⟩
    have hlvl : errorOrWarnLevel
        ((st.symMap.map Prod.snd).foldl resolveOne
          (st, ⟨[], [], []⟩)).1.config = DiagLevel.err := by
      rw [qc]
      unfold errorOrWarnLevel
      rw [if_neg (by rw [hf]; exact fun h => Bool.noConfusion h)]
    rw [hlvl] at hmem
    exact hmem

/-- The fallback instantiated on a forced-mode table: the undefined `foo`
referenced by `main.obj` becomes `DefinedAbsolute 0` and a warning-severity
undefined-symbol diagnostic is recorded. -/
theorem c5_forced_unresolved_fallback_witness :
    ((resolveRemainingUndefines exC5Force).1.symAt 0).kind =
        SymbolKind.definedAbsolute 0 ∧
    ∃ locs n, Diag.undefinedSymbol DiagLevel.warn 0 locs n ∈
      (resolveRemainingUndefines exC5Force).1.diags :=
  (c5_forced_unresolved_fallback exC5Force 0 false (by decide) (by decide)
    (by decide) (by decide) (by decide) (by decide) (by decide)).1 (by decide)

theorem scanRelocs_cap (fn : String) (si M : Nat) :
    ∀ (rs : List RelocInfo) (locs : List RefLocation) (n : Nat),
      locs.length ≤ M →
      (scanRelocs fn si M rs (locs, n)).1.length ≤ M := by
  intro rs
  induction rs with
  | nil => intro locs n h; exact h
  | cons r rest ih =>
      intro locs n h
      unfold scanRelocs
      by_cases hs : r.symbolIndex = si
      · rw [if_pos hs]
        dsimp only
        by_cases hge : locs.length ≥ M
        · rw [if_pos hge]
          exact ih locs (n + 1) h
        · rw [if_neg hge]
          have hlt : locs.length < M := Nat.lt_of_not_le hge
          split
          · refine ih _ (n + 1) ?_
            simp only [List.length_append, List.length_singleton]
            omega
          · split
            · refine ih _ (n + 1) ?_
              simp only [List.length_append, List.length_singleton]
              omega
            · exact ih locs (n + 1) h
      · rw [if_neg hs]
        exact ih locs n h

theorem scanRelocs_le (fn : String) (si M : Nat) :
    ∀ (rs : List RelocInfo) (locs : List RefLocation) (n : Nat),
      (scanRelocs fn si M rs (locs, n)).1.length + n ≤
        locs.length + (scanRelocs fn si M rs (locs, n)).2 := by
  intro rs
  induction rs with
  | nil => intro locs n; exact Nat.le_refl _
  | cons r rest ih =>
      intro locs n
      unfold scanRelocs
      by_cases hs : r.symbolIndex = si
      · rw [if_pos hs]
        dsimp only
        by_cases hge : locs.length ≥ M
        · rw [if_pos hge]
          have := ih locs (n + 1)
          omega
        · rw [if_neg hge]
          split
          · rename_i fl heq
            have := ih (locs ++ [⟨some fl, r.containingSym, fn⟩]) (n + 1)
            simp only [List.length_append, List.length_singleton] at this
            omega
          · split
            · rename_i s heq2
              have := ih (locs ++ [⟨none, some s, fn⟩]) (n + 1)
              simp only [List.length_append, List.length_singleton] at this
              omega
            · have := ih locs (n + 1)
              omega
      · rw [if_neg hs]
        exact ih locs n

theorem scanChunks_cap (fn : String) (si M : Nat) :
    ∀ (cs : List DiagChunk) (acc : List RefLocation × Nat),
      acc.1.length ≤ M →
      (scanChunks fn si M cs acc).1.length ≤ M := by
  intro cs
  induction cs with
  | nil => intro acc h; exact h
  | cons c rest ih =>
      intro acc h
      cases c with
      | sectionChunk rs =>
          obtain ⟨locs, n⟩ := acc
          exact ih (scanRelocs fn si M rs (locs, n))
            (scanRelocs_cap fn si M rs locs n h)
      | otherChunk => exact ih acc h

theorem scanChunks_le (fn : String) (si M : Nat) :
    ∀ (cs : List DiagChunk) (acc : List RefLocation × Nat),
      (scanChunks fn si M cs acc).1.length + acc.2 ≤
        acc.1.length + (scanChunks fn si M cs acc).2 := by
  intro cs
  induction cs with
  | nil => intro acc; exact Nat.le_refl _
  | cons c rest ih =>
      intro acc
      cases c with
      | sectionChunk rs =>
          obtain ⟨locs, n⟩ := acc
          have h1 := scanRelocs_le fn si M rs locs n
          have h2 := ih (scanRelocs fn si M rs (locs, n))
          simp only [scanChunks]
          omega
      | otherChunk => exact ih acc

theorem getSymbolLocationsObj_cap (file : ObjFileRec) (si m : Nat) :
    (getSymbolLocationsObj file si m).1.length ≤ m ∧
    (getSymbolLocationsObj file si m).1.length ≤
      (getSymbolLocationsObj file si m).2 := by
  unfold getSymbolLocationsObj
  dsimp only
  have hcap := scanChunks_cap file.fileName si m file.chunks ([], 0)
    (Nat.zero_le m)
  have hle := scanChunks_le file.fileName si m file.chunks ([], 0)
  by_cases hm : m = 0
  · rw [if_pos hm]
    subst hm
    exact ⟨Nat.le_refl 0, Nat.zero_le _⟩
  · rw [if_neg hm]
    by_cases hz : (scanChunks file.fileName si m file.chunks ([], 0)).2 = 0
    · rw [if_pos hz]
      exact ⟨Nat.one_le_iff_ne_zero.mpr hm, Nat.le_refl 1⟩
    · rw [if_neg hz]
      dsimp only
      dsimp only at hle
      simp only [List.length_nil] at hle
      exact ⟨hcap, by omega⟩

theorem getSymbolLocationsFile_cap (f : DiagFile) (si m : Nat) :
    (getSymbolLocationsFile f si m).1.length ≤ m ∧
    (getSymbolLocationsFile f si m).1.length ≤
      (getSymbolLocationsFile f si m).2 := by
  cases f with
  | objFile o => exact getSymbolLocationsObj_cap o si m
  | bitcodeFile b =>
      unfold getSymbolLocationsFile getSymbolLocationsBitcode
      dsimp only
      by_cases hm : m = 0
      · rw [if_pos hm]
        subst hm
        exact ⟨Nat.le_refl 0, Nat.zero_le _⟩
      · rw [if_neg hm]
        exact ⟨Nat.one_le_iff_ne_zero.mpr hm, Nat.le_refl 1⟩

theorem accumLocations_cap :
    ∀ (files : List UDFileRef) (acc : List RefLocation × Nat),
      acc.1.length ≤ maxUndefReferences →
      (accumLocations files acc).1.length ≤ maxUndefReferences := by
  intro files
  induction files with
  | nil => intro acc h; exact h
  | cons fr rest ih =>
      intro acc h
      obtain ⟨locs, n⟩ := acc
      refine ih _ ?_
      dsimp only
      rw [List.length_append]
      have := (getSymbolLocationsFile_cap fr.file fr.symIndex
        (maxUndefReferences - locs.length)).1
      dsimp only at h
      omega

theorem accumLocations_le :
    ∀ (files : List UDFileRef) (acc : List RefLocation × Nat),
      acc.1.length ≤ acc.2 →
      (accumLocations files acc).1.length ≤ (accumLocations files acc).2 := by
  intro files
  induction files with
  | nil => intro acc h; exact h
  | cons fr rest ih =>
      intro acc h
      obtain ⟨locs, n⟩ := acc
      refine ih _ ?_
      dsimp only
      rw [List.length_append]
      have := (getSymbolLocationsFile_cap fr.file fr.symIndex
        (maxUndefReferences - locs.length)).2
      dsimp only at h
      omega

theorem addRefToDiags_sym_subset (uds : List UndefinedDiag) (s : Nat)
    (fr : UDFileRef) (t : Nat)
    (h : t ∈ (addRefToDiags uds s fr).map UndefinedDiag.sym) :
    t ∈ uds.map UndefinedDiag.sym ∨ t = s := by
  induction uds with
  | nil => exact Or.inr (List.mem_singleton.mp h)
  | cons ud rest ih =>
      unfold addRefToDiags at h
      by_cases hs : ud.sym = s
      · rw [if_pos hs] at h
        rcases List.mem_cons.mp h with h1 | h2
        · exact Or.inl (List.mem_cons.mpr (Or.inl h1))
        · exact Or.inl (List.mem_cons.mpr (Or.inr h2))
      · rw [if_neg hs] at h
        rcases List.mem_cons.mp h with h1 | h2
        · exact Or.inl (List.mem_cons.mpr (Or.inl h1))
        · rcases ih h2 with h3 | h3
          · exact Or.inl (List.mem_cons.mpr (Or.inr h3))
          · exact Or.inr h3

theorem addRefToDiags_nodup (uds : List UndefinedDiag) (s : Nat) (fr : UDFileRef)
    (h : (uds.map UndefinedDiag.sym).Nodup) :
    ((addRefToDiags uds s fr).map UndefinedDiag.sym).Nodup := by
  induction uds with
  | nil => exact List.nodup_singleton s
  | cons ud rest ih =>
      rw [List.map_cons, List.nodup_cons] at h
      unfold addRefToDiags
      by_cases hs : ud.sym = s
      · rw [if_pos hs]
        rw [List.map_cons, List.nodup_cons]
        exact ⟨h.1, h.2⟩
      · rw [if_neg hs]
        rw [List.map_cons, List.nodup_cons]
        refine ⟨?_, ih h.2⟩
        intro hmem
        rcases addRefToDiags_sym_subset rest s fr ud.sym hmem with h3 | h3
        · exact h.1 h3
        · exact hs h3

theorem processSyms_nodup (undefs : List Nat) (li : Option (List (Nat × Nat)))
    (file : DiagFile) :
    ∀ (syms : List (Option Nat)) (idx : Nat)
      (acc : List Diag × List UndefinedDiag),
      (acc.2.map UndefinedDiag.sym).Nodup →
      ((processSyms undefs li file syms idx acc).2.map UndefinedDiag.sym).Nodup := by
  intro syms
  induction syms with
  | nil => intro idx acc h; exact h
  | cons o rest ih =>
      intro idx acc h
      cases o with
      | none => exact ih (idx + 1) acc h
      | some s =>
          obtain ⟨ds, uds⟩ := acc
          unfold processSyms
          apply ih
          dsimp only
          by_cases hs : s ∈ undefs
          · rw [if_pos hs]
            exact addRefToDiags_nodup uds s _ h
          · rw [if_neg hs]
            exact h

theorem foldlObj_nodup (undefs : List Nat) (li : Option (List (Nat × Nat))) :
    ∀ (files : List ObjFileRec) (acc : List Diag × List UndefinedDiag),
      (acc.2.map UndefinedDiag.sym).Nodup →
      (((files.foldl
        (fun a f => processSyms undefs li (DiagFile.objFile f) f.symbols 0 a)
        acc).2.map UndefinedDiag.sym)).Nodup := by
  intro files
  induction files with
  | nil => intro acc h; exact h
  | cons f rest ih =>
      intro acc h
      rw [List.foldl_cons]
      exact ih _ (processSyms_nodup undefs li (DiagFile.objFile f)
        f.symbols 0 acc h)

theorem countP_reportUndefined (stx : SymTab) (i : Nat) :
    ∀ (uds : List UndefinedDiag),
      (uds.map UndefinedDiag.sym).Nodup →
      i ∈ uds.map UndefinedDiag.sym →
      (uds.map (reportUndefinedSymbol stx)).countP
        (fun d => match d with
          | Diag.undefinedSymbol _ s _ _ => decide (s = i)
          | _ => false) = 1 := by
  intro uds
  induction uds with
  | nil => intro _ hmem; exact absurd hmem (List.not_mem_nil i)
  | cons ud rest ih =>
      intro hnd hmem
      rw [List.map_cons, List.nodup_cons] at hnd
      rw [List.map_cons, List.countP_cons]
      rcases List.mem_cons.mp hmem with h1 | h2
      · have hz : (rest.map (reportUndefinedSymbol stx)).countP
            (fun d => match d with
              | Diag.undefinedSymbol _ s _ _ => decide (s = i)
              | _ => false) = 0 := by
          rw [List.countP_eq_zero]
          intro d hd
          obtain ⟨ud', hud', rfl⟩ := List.mem_map.mp hd
          intro hdec
          have hsy : ud'.sym = i := of_decide_eq_true hdec
          have hm2 := List.mem_map_of_mem UndefinedDiag.sym hud'
          rw [hsy.trans h1] at hm2
          exact hnd.1 hm2
        have hrep : reportUndefinedSymbol stx ud =
            Diag.undefinedSymbol (errorOrWarnLevel stx.config) ud.sym
              (accumLocations ud.files ([], 0)).1
              (accumLocations ud.files ([], 0)).2 := rfl
        rw [hz, hrep]
        simp [h1.symm]
      · have hne : ud.sym ≠ i := by
          intro he
          rw [he] at hnd
          exact hnd.1 h2
        have hrep : reportUndefinedSymbol stx ud =
            Diag.undefinedSymbol (errorOrWarnLevel stx.config) ud.sym
              (accumLocations ud.files ([], 0)).1
              (accumLocations ud.files ([], 0)).2 := rfl
        rw [hrep, ih hnd.2 h2]
        simp [hne]

theorem foldl_countP_zero {β : Type} (p : Diag → Bool)
    (F : List Diag → β → List Diag)
    (hF : ∀ ds b, (F ds b).countP p = ds.countP p) :
    ∀ (l : List β) (ds : List Diag), (l.foldl F ds).countP p = ds.countP p := by
  intro l
  induction l with
  | nil => intro ds; rfl
  | cons b rest ih =>
      intro ds
      rw [List.foldl_cons, ih, hF]

theorem processSyms_diags_countP (p : Diag → Bool)
    (hp : ∀ imp, p (Diag.localImportWarn imp) = false)
    (undefs : List Nat) (li : Option (List (Nat × Nat))) (file : DiagFile) :
    ∀ (syms : List (Option Nat)) (idx : Nat)
      (acc : List Diag × List UndefinedDiag),
      ((processSyms undefs li file syms idx acc).1).countP p =
        acc.1.countP p := by
  intro syms
  induction syms with
  | nil => intro idx acc; rfl
  | cons o rest ih =>
      intro idx acc
      cases o with
      | none => exact ih (idx + 1) acc
      | some s =>
          obtain ⟨ds, uds⟩ := acc
          unfold processSyms
          rw [ih]
          dsimp only
          cases li with
          | none => rfl
          | some li' =>
              split
              · split
                · rw [List.countP_append]
                  simp [List.countP_cons, hp]
                · rfl
              · rfl

theorem foldlObj_diags_countP (p : Diag → Bool)
    (hp : ∀ imp, p (Diag.localImportWarn imp) = false)
    (undefs : List Nat) (li : Option (List (Nat × Nat))) :
    ∀ (files : List ObjFileRec) (acc : List Diag × List UndefinedDiag),
      ((files.foldl
        (fun a f => processSyms undefs li (DiagFile.objFile f) f.symbols 0 a)
        acc).1).countP p = acc.1.countP p := by
  intro files
  induction files with
  | nil => intro acc; rfl
  | cons f rest ih =>
      intro acc
      rw [List.foldl_cons, ih]
      exact processSyms_diags_countP p hp undefs li (DiagFile.objFile f)
        f.symbols 0 acc

theorem reportProblem_exactly_one (stx : SymTab) (undefs : List Nat)
    (li : Option (List (Nat × Nat))) (i : Nat) (hiu : i ∈ undefs)
    (href : ∃ f ∈ stx.objFiles, some i ∈ f.symbols) :
    (reportProblemSymbols stx undefs li false).diags.countP
      (fun d => match d with
        | Diag.undefinedSymbol _ s _ _ => decide (s = i)
        | _ => false) =
    stx.diags.countP
      (fun d => match d with
        | Diag.undefinedSymbol _ s _ _ => decide (s = i)
        | _ => false) + 1 := by
  unfold reportProblemSymbols
  rw [if_neg (by
    intro hc
    rw [Bool.and_eq_true] at hc
    have hnil : undefs = [] := by
      cases undefs with
      | nil => rfl
      | cons a l => cases hc.1
    rw [hnil] at hiu
    exact absurd hiu (List.not_mem_nil i))]
  dsimp only
  simp only [Bool.false_eq_true, if_false]
  rw [List.countP_append, List.countP_append, List.countP_append]
  have hroot := foldl_countP_zero
    (fun d => match d with
      | Diag.undefinedSymbol _ s _ _ => decide (s = i)
      | _ => false)
    (fun ds b =>
      let ds1 :=
        if b ∈ undefs then
          ds ++ [Diag.rootUndefined (errorOrWarnLevel stx.config) b]
        else ds
      match li with
      | some li2 =>
          match li2.lookup b with
          | some imp => ds1 ++ [Diag.localImportWarn imp]
          | none => ds1
      | none => ds1)
    (by
      intro ds b
      dsimp only
      have hds1 : (if b ∈ undefs then
          ds ++ [Diag.rootUndefined (errorOrWarnLevel stx.config) b]
        else ds).countP (fun d => match d with
          | Diag.undefinedSymbol _ s _ _ => decide (s = i)
          | _ => false) = ds.countP (fun d => match d with
          | Diag.undefinedSymbol _ s _ _ => decide (s = i)
          | _ => false) := by
        by_cases hb : b ∈ undefs
        · rw [if_pos hb, List.countP_append]
          simp [List.countP_cons]
        · rw [if_neg hb]
      cases li with
      | none => exact hds1
      | some li2 =>
          split
          · split
            · rw [List.countP_append, hds1]
              simp [List.countP_cons]
            · exact hds1
          · exact hds1)
    stx.config.gcroot []
  dsimp only at hroot
  have hacc := foldlObj_diags_countP
    (fun d => match d with
      | Diag.undefinedSymbol _ s _ _ => decide (s = i)
      | _ => false)
    (fun _ => rfl) undefs li stx.objFiles ([], [])
  have hnodup := foldlObj_nodup undefs li stx.objFiles ([], []) List.nodup_nil
  have hmem := foldlObj_mem undefs li i hiu stx.objFiles ([], []) (Or.inl href)
  have hund := countP_reportUndefined stx i _ hnodup hmem
  rw [hroot, hacc, hund]
  simp [List.countP_nil]

/-- C9. Undefined-symbol diagnostic batching: (a) every batched diagnostic
`reportUndefinedSymbol` emits carries at most `maxUndefReferences` (3)
displayed locations together with the total reference count, of which the
displayed locations are never more than the total (the source prints the
difference as "referenced N more times"); (b) for a reported undefined
symbol referenced from the object files, `reportProblemSymbols` appends
exactly one `undefinedSymbol` diagnostic naming it. -/
theorem c9_undefined_diag_batching :
    (∀ (stx : SymTab) (ud : UndefinedDiag),
      reportUndefinedSymbol stx ud =
        Diag.undefinedSymbol (errorOrWarnLevel stx.config) ud.sym
          (accumLocations ud.files ([], 0)).1
          (accumLocations ud.files ([], 0)).2 ∧
      (accumLocations ud.files ([], 0)).1.length ≤ maxUndefReferences ∧
      (accumLocations ud.files ([], 0)).1.length ≤
        (accumLocations ud.files ([], 0)).2) ∧
    (∀ (stx : SymTab) (undefs : List Nat) (li : Option (List (Nat × Nat)))
      (i : Nat), i ∈ undefs → (∃ f ∈ stx.objFiles, some i ∈ f.symbols) →
      (reportProblemSymbols stx undefs li false).diags.countP
        (fun d => match d with
          | Diag.undefinedSymbol _ s _ _ => decide (s = i)
          | _ => false) =
      stx.diags.countP
        (fun d => match d with
          | Diag.undefinedSymbol _ s _ _ => decide (s = i)
          | _ => false) + 1) :=
  ⟨fun stx ud => ⟨rfl,
    accumLocations_cap ud.files ([], 0) (Nat.zero_le _),
    accumLocations_le ud.files ([], 0) (Nat.le_refl 0)⟩,
   fun stx undefs li i hiu href => reportProblem_exactly_one stx undefs li i
     hiu href⟩

/-- Batching instantiated on the forced-mode example table: reporting the
undefined slot 0 adds exactly one `undefinedSymbol` diagnostic for it. -/
theorem c9_undefined_diag_batching_witness :
    (reportProblemSymbols exC5Force [0] none false).diags.countP
      (fun d => match d with
        | Diag.undefinedSymbol _ s _ _ => decide (s = 0)
        | _ => false) =
    exC5Force.diags.countP
      (fun d => match d with
        | Diag.undefinedSymbol _ s _ _ => decide (s = 0)
        | _ => false) + 1 :=
  c9_undefined_diag_batching.2 exC5Force [0] none 0 (by decide) (by decide)

end LldCOFF
